import Mathlib

/-!
Verification of the drcar rule-based diagnostic expert system.

This file gives a shallow embedding, in Lean 4, of the two algorithmic cores of
the repository:

* `MotorInferencia.inferir` and `MotorInferencia._explicacion_sin_diagnostico`
  (src/modulos/motor_inferencia.py): rule matching over a normalized symptom
  set, tie-break selection of a best rule, the per-rule evaluation trace, and
  the no-diagnosis explanation rendering for the apprentice profile.
* `OntologiaDominio.validar_coherencia_detallada` (src/modulos/ontologia.py):
  cycle-safe depth-first validation of the concept hierarchy plus type checking
  of the semantic relation triples against the vocabularies.

Modelling conventions, chosen once and used throughout:

* Python strings are Lean `String`; `str.strip()` is `pyStrip`; Python
  string truthiness (`if s`) is `!s.isEmpty`.
* Python sets of strings are `Finset String`; `sorted(list(s))` is
  `Finset.sort (· ≤ ·) s`.
* Python floats are modelled as `ℚ`.  Every float the code produces itself is
  a quotient of two small naturals (exact in `ℚ`); `round(x, 3)` is modelled
  by exact round-half-to-even on `x * 1000`, which agrees with CPython's
  3-decimal rounding on these values.  Certainty values coming from the
  dataset are carried as `ℚ` fields.
* A Python dict field that the code reads with `r.get(k)` and that may be
  absent is an `Option`; a field whose value may fail an `isinstance` test is
  an explicit sum (`Condiciones`, `Campo`, `JerRaiz`, `RelRaiz`), with one
  constructor for every shape the code distinguishes.
* Fallible lookups return `Option`; no exception crosses the embedding.
-/


/-- Python `str.strip()`, modelled on the character list of the string:
drop whitespace characters from both ends.  (Python strips a slightly wider
Unicode whitespace class; the tokens of this dataset only carry ASCII
whitespace, where the two coincide.) -/
def pyStrip (s : String) : String :=
  String.mk
    (((s.data.dropWhile Char.isWhitespace).reverse.dropWhile
      Char.isWhitespace).reverse)

/-- Lexicographic string comparison on the character lists — the comparison
Python's `sorted` applies to strings (by code point).  Defined structurally
so that it evaluates inside the kernel; `leStrIff` identifies it with the
`≤` of `String`. -/
def leData : List Char → List Char → Bool
  | [], _ => true
  | _ :: _, [] => false
  | c1 :: t1, c2 :: t2 =>
      if c1 < c2 then true else if c2 < c1 then false else leData t1 t2

/-- String comparison by code points, see `leData`. -/
def leStr (a b : String) : Bool := leData a.data b.data

/-- Correctness fact for `leData`, phrased as a definition so that the
executable sorting definitions below can depend on it. -/
def leDataIff : ∀ x y : List Char,
    leData x y = true ↔ ¬ List.Lex (· < ·) y x := by
  intro x
  induction x with
  | nil =>
    intro y
    constructor
    · intro _ hlex
      cases hlex
    · intro _
      rfl
  | cons c1 t1 ih =>
    intro y
    cases y with
    | nil =>
      constructor
      · intro h
        simp [leData] at h
      · intro h
        exact absurd List.Lex.nil h
    | cons c2 t2 =>
      simp only [leData]
      rcases lt_trichotomy c1 c2 with hlt | heq | hgt
      · rw [if_pos hlt]
        constructor
        · intro _ hlex
          cases hlex with
          | cons hl => exact absurd hlt (lt_irrefl c1)
          | rel hr => exact absurd hlt (asymm hr)
        · intro _
          rfl
      · subst heq
        rw [if_neg (lt_irrefl c1), if_neg (lt_irrefl c1)]
        constructor
        · intro h hlex
          cases hlex with
          | cons hl => exact (ih t2).mp h hl
          | rel hr => exact absurd hr (lt_irrefl c1)
        · intro h
          exact (ih t2).mpr fun hl => h (List.Lex.cons hl)
      · rw [if_neg (asymm hgt), if_pos hgt]
        constructor
        · intro h
          cases h
        · intro h
          exact absurd (List.Lex.rel hgt) h

/-- `leStr` decides `≤` on `String`. -/
def leStrIff : ∀ a b : String, leStr a b = true ↔ a ≤ b := by
  intro a b
  rw [← not_lt, String.lt_iff_toList_lt]
  exact leDataIff a.data b.data

/-- Order-preserving insertion into a `leStr`-sorted list of strings. -/
def insOrd (x : String) : List String → List String
  | [] => [x]
  | y :: ys => if leStr x y then x :: y :: ys else y :: insOrd x ys

/-- Insertion sort of a list of strings in ascending code-point order — the
order `sorted(...)` produces on Python strings. -/
def ordenaStr : List String → List String
  | [] => []
  | x :: xs => insOrd x (ordenaStr xs)

/-- `insOrd` permutes. -/
def insOrdPerm : ∀ (x : String) (l : List String),
    List.Perm (insOrd x l) (x :: l) := by
  intro x l
  induction l with
  | nil => rfl
  | cons y ys ih =>
    simp only [insOrd]
    split
    · rfl
    · exact List.Perm.trans (List.Perm.cons y ih) (List.Perm.swap x y ys)

/-- `ordenaStr` permutes. -/
def ordenaStrPerm : ∀ l : List String, List.Perm (ordenaStr l) l := by
  intro l
  induction l with
  | nil => rfl
  | cons x xs ih =>
    exact List.Perm.trans (insOrdPerm x (ordenaStr xs)) (List.Perm.cons x ih)

/-- `insOrd` preserves sortedness. -/
def insOrdSorted : ∀ {x : String} {l : List String},
    List.Sorted (· ≤ ·) l → List.Sorted (· ≤ ·) (insOrd x l) := by
  intro x l h
  induction l with
  | nil => simp [insOrd]
  | cons y ys ih =>
    simp only [insOrd]
    split
    · rename_i hxy
      have hxy2 : x ≤ y := (leStrIff x y).mp hxy
      refine List.sorted_cons.mpr ⟨?_, h⟩
      intro b hb
      rcases List.mem_cons.mp hb with hb | hb
      · rw [hb]
        exact hxy2
      · exact le_trans hxy2 ((List.sorted_cons.mp h).1 b hb)
    · rename_i hxy
      have hyx : y ≤ x := by
        by_contra hc
        exact hxy ((leStrIff x y).mpr (le_of_not_le hc))
      obtain ⟨hy, hys⟩ := List.sorted_cons.mp h
      refine List.sorted_cons.mpr ⟨?_, ih hys⟩
      intro b hb
      have hb2 : b ∈ x :: ys := (insOrdPerm x ys).mem_iff.mp hb
      rcases List.mem_cons.mp hb2 with hb3 | hb3
      · rw [hb3]
        exact hyx
      · exact hy b hb3

/-- `ordenaStr` sorts. -/
def ordenaStrSorted : ∀ l : List String, List.Sorted (· ≤ ·) (ordenaStr l) := by
  intro l
  induction l with
  | nil => simp [ordenaStr]
  | cons x xs ih => exact insOrdSorted ih

/-- Python `sorted(list(s))` for a set of strings: the canonical ascending
listing of a `Finset String`, computed by lifting the insertion sort through
the multiset quotient (a sorted listing is permutation-invariant).  The
theorem `sortFinset_eq` identifies it with Mathlib\x27s `Finset.sort`. -/
def sortFinset (s : Finset String) : List String :=
  Quotient.lift ordenaStr
    (fun l1 l2 h =>
      List.eq_of_perm_of_sorted
        (((ordenaStrPerm l1).trans h).trans (ordenaStrPerm l2).symm)
        (ordenaStrSorted l1) (ordenaStrSorted l2))
    s.val

/-- The raw `condiciones` value of a rule dict: either an actual Python list of
condition tokens (`lista`, each element already passed through `str(...)`), or
any other value (`otro`): absent key (Python default `[]`), `None`, a string, a
number, ... — everything `isinstance(condiciones, list)` rejects or
`or []` collapses.  `MotorInferencia.inferir` skips a rule unless the value is
a non-empty list. -/
inductive Condiciones where
  | lista (cs : List String)
  | otro
deriving DecidableEq

/-- A rule dict from `reglas_criticas`, restricted to the keys
`MotorInferencia.inferir` reads: `id`, `nombre`, `condiciones`, `certeza`,
`conclusion`, `tipo_falla`, `requiere_reparacion`, `explicacion_cliente`,
`explicacion_tecnica`.  `id` and `conclusion` are `Option` because the code
reads them with `r.get(...)` and propagates `None`; the remaining `get` calls
supply defaults which the field values model directly. -/
structure Regla where
  id : Option String
  nombre : String
  condiciones : Condiciones
  certeza : ℚ
  conclusion : Option String
  tipo_falla : String
  requiere_reparacion : List String
  explicacion_cliente : String
  explicacion_tecnica : String
deriving DecidableEq

/-- A trace entry dict as built per rule inside `inferir`'s loop. -/
structure Traza where
  regla_id : Option String
  nombre : String
  cumple : Bool
  score : ℚ
  certeza : ℚ
  matched : List String
  missing : List String
  conclusion : Option String
  tipo_falla : String
  requiere_reparacion : List String
deriving DecidableEq

/-- The result dict of `inferir`.  `noPosible traza hechos` stands for the
sentinel dict `{"diagnostico": "diagnostico_no_posible", "regla": None,
"certeza": 0.0, "tipo_falla": "", "requiere_reparacion": [],
"explicacion_cliente": "", "explicacion_tecnica": "", "traza": traza,
"hechos": hechos}` (all non-trace fields are fixed constants there);
`diagnostico` is the bound-diagnosis dict, fields in source order. -/
inductive Resultado where
  | noPosible (traza : List Traza) (hechos : List String)
  | diagnostico (diag : Option String) (regla : Option String)
      (reglaNombre : String) (certeza : ℚ) (tipoFalla : String)
      (requiereReparacion : List String) (explicacionCliente : String)
      (explicacionTecnica : String) (condiciones : Condiciones)
      (traza : List Traza) (hechos : List String)
deriving DecidableEq

/-- The `traza` key of either result shape. -/
def Resultado.traza : Resultado → List Traza
  | Resultado.noPosible t _ => t
  | Resultado.diagnostico _ _ _ _ _ _ _ _ _ t _ => t

/-- Normalized symptom set: `set(s.strip() for s in sintomas if s and s.strip())`. -/
def normSset (sintomas : List String) : Finset String :=
  ((sintomas.filter fun s => !s.isEmpty && !(pyStrip s).isEmpty).map pyStrip).toFinset

/-- Normalized condition set of one rule:
`set(str(c).strip() for c in condiciones if str(c).strip())`
(the elements of `cs` model the already `str(...)`-converted values). -/
def normCset (cs : List String) : Finset String :=
  ((cs.filter fun c => !(pyStrip c).isEmpty).map pyStrip).toFinset

/-- The guard at the top of `inferir`'s loop:
`condiciones = r.get("condiciones", []) or []` followed by
`if not isinstance(condiciones, list) or not condiciones: continue`.
Returns the raw condition list when the rule participates, `none` when the
loop `continue`s past it. -/
def condList (r : Regla) : Option (List String) :=
  match r.condiciones with
  | Condiciones.lista cs => if cs.isEmpty then none else some cs
  | Condiciones.otro => none

/-- Round-half-to-even to an integer, the rounding CPython's `round` uses. -/
def redondeaMedioPar (x : ℚ) : ℤ :=
  let n := ⌊x⌋
  let f := x - n
  if f < 1 / 2 then n
  else if 1 / 2 < f then n + 1
  else if n % 2 = 0 then n else n + 1

/-- Python `round(x, 3)`: round to three decimal places, half to even. -/
def redondea3 (x : ℚ) : ℚ := (redondeaMedioPar (x * 1000) : ℚ) / 1000

/-- The trace entry `inferir` appends for a rule `r` with raw condition list
`cs` against the normalized symptom set `sset`: `matched`/`missing` are the
sorted intersection/difference of the normalized condition set with `sset`,
`cumple` is `len(missing) == 0`, the stored `score` is
`round(len(matched) / max(1, len(cset)), 3)`. -/
def evalRegla (sset : Finset String) (r : Regla) (cs : List String) : Traza :=
  let cset := normCset cs
  let matched := sortFinset (cset ∩ sset)
  let missing := sortFinset (cset \ sset)
  let cumple := missing.length == 0
  let score : ℚ := (matched.length : ℚ) / (max 1 cset.card : ℚ)
  { regla_id := r.id
    nombre := r.nombre
    cumple := cumple
    score := redondea3 score
    certeza := r.certeza
    matched := matched
    missing := missing
    conclusion := r.conclusion
    tipo_falla := r.tipo_falla
    requiere_reparacion := r.requiere_reparacion }

/-- The tie-break key tuple `(1 if cumple else 0, certeza, len(cset), score)`. -/
abbrev Key : Type := ℕ × ℚ × ℕ × ℚ

/-- Strict lexicographic order on key tuples, the order Python's `>` uses on
4-tuples. -/
def KeyLt (a b : Key) : Prop :=
  a.1 < b.1 ∨ a.1 = b.1 ∧
    (a.2.1 < b.2.1 ∨ a.2.1 = b.2.1 ∧
      (a.2.2.1 < b.2.2.1 ∨ a.2.2.1 = b.2.2.1 ∧ a.2.2.2 < b.2.2.2))

instance (a b : Key) : Decidable (KeyLt a b) := by
  unfold KeyLt; infer_instance

/-- Python `key > mejor_key` on the 4-tuples. -/
def keyGt (a b : Key) : Bool := decide (KeyLt b a)

/-- The tie-break key `inferir` computes for an eligible rule: cumple flag as
1/0, certainty, specificity (condition-set size), unrounded score. -/
def keyOf (sset : Finset String) (r : Regla) (cs : List String) : Key :=
  let cset := normCset cs
  let matched := sortFinset (cset ∩ sset)
  let missing := sortFinset (cset \ sset)
  let cumple := missing.length == 0
  let score : ℚ := (matched.length : ℚ) / (max 1 cset.card : ℚ)
  ((if cumple then 1 else 0), r.certeza, cset.card, score)

/-- One step of `inferir`'s best-rule update:
`if mejor is None or key > mejor_key: mejor = r; mejor_key = key`. -/
def actualiza (mejor : Option (Regla × Key)) (p : Regla × Key) :
    Option (Regla × Key) :=
  match mejor with
  | none => some p
  | some (m, mk) => if keyGt p.2 mk then some p else some (m, mk)

/-- The rule loop of `inferir`, threading the trace list and the current best
rule and key exactly as the Python `for r in reglas` loop does. -/
def bucle (sset : Finset String) (rs : List Regla) (traza : List Traza)
    (mejor : Option (Regla × Key)) : List Traza × Option (Regla × Key) :=
  match rs with
  | [] => (traza, mejor)
  | r :: rest =>
    match condList r with
    | none => bucle sset rest traza mejor
    | some cs =>
        bucle sset rest (traza ++ [evalRegla sset r cs])
          (actualiza mejor (r, keyOf sset r cs))

/-- The full trace `inferir` produces: one entry per eligible rule, in
snapshot order. -/
def trazaDe (sset : Finset String) (rs : List Regla) : List Traza :=
  rs.filterMap fun r => (condList r).map fun cs => evalRegla sset r cs

/-- Eligible rules paired with their tie-break keys, in snapshot order. -/
def paresDe (sset : Finset String) (rs : List Regla) : List (Regla × Key) :=
  rs.filterMap fun r => (condList r).map fun cs => (r, keyOf sset r cs)

/-- Left fold of `actualiza` over the eligible (rule, key) pairs — the pure
content of the best-rule scan inside `bucle`. -/
def bestFold (mejor : Option (Regla × Key)) : List (Regla × Key) →
    Option (Regla × Key)
  | [] => mejor
  | p :: ps => bestFold (actualiza mejor p) ps

/-- `MotorInferencia.inferir`: normalize the symptoms, evaluate every eligible
rule, pick the best key holder, and bind a diagnosis only if the trace entry
found for the best rule's id fully matches (`cumple`); otherwise return the
`diagnostico_no_posible` sentinel shape. -/
def inferir (reglas : List Regla) (sintomas : List String) : Resultado :=
  let sset := normSset sintomas
  let st := bucle sset reglas [] none
  let traza := st.1
  let hechos := sortFinset sset
  match st.2 with
  | none => Resultado.noPosible traza hechos
  | some (mejor, _) =>
    match traza.find? (fun t => t.regla_id == mejor.id) with
    | none => Resultado.noPosible traza hechos
    | some e =>
      if e.cumple then
        Resultado.diagnostico mejor.conclusion mejor.id mejor.nombre
          mejor.certeza mejor.tipo_falla mejor.requiere_reparacion
          mejor.explicacion_cliente mejor.explicacion_tecnica
          mejor.condiciones traza hechos
      else Resultado.noPosible traza hechos

/-- The dash divider `DIV = "-" * 70`. -/
def lineaDiv : String := String.mk (List.replicate 70 '-')

/-- `MotorInferencia._join`: `", ".join(items) if items else "N/A"`. -/
def unir (items : List String) : String :=
  if items.isEmpty then "N/A" else String.intercalate ", " items

/-- How a value read with `t.get("regla_id")` renders inside an f-string:
`None` for an absent id, the bare text otherwise. -/
def pyStrOpt : Option String → String
  | none => "None"
  | some s => s

/-- How a Python bool renders inside an f-string. -/
def pyBool : Bool → String
  | true => "True"
  | false => "False"

/-- Decimal digits of a fractional part `f` with `0 ≤ f < 1`, most significant
first, stopping at the last non-zero digit; `fuel` bounds the expansion (the
values the engine prints terminate within three digits). -/
def digitosFrac : ℕ → ℚ → String
  | 0, _ => ""
  | fuel + 1, f =>
      let d := ⌊f * 10⌋
      let resto := f * 10 - (d : ℚ)
      toString d ++ (if resto = 0 then "" else digitosFrac fuel resto)

/-- Rendering of a non-negative rational as Python's `repr` renders the
corresponding float when that float is an exact short decimal (`0.667`,
`1.0`, `0.9`, ...): integer part, a dot, then the fractional digits with a
single `0` when the value is integral. -/
def fmtAbs (q : ℚ) : String :=
  let n := ⌊q⌋
  let f := q - (n : ℚ)
  toString n ++ "." ++ (if f = 0 then "0" else digitosFrac 30 f)

/-- Rendering of a rational as Python renders the corresponding float value
inside an f-string. -/
def fmtQ (q : ℚ) : String :=
  if q < 0 then "-" ++ fmtAbs (-q) else fmtAbs q

/-- Strict lexicographic order on the apprentice candidate key
`(score, certeza, len(matched))`. -/
def LtA (a b : ℚ × ℚ × ℕ) : Prop :=
  a.1 < b.1 ∨ a.1 = b.1 ∧ (a.2.1 < b.2.1 ∨ a.2.1 = b.2.1 ∧ a.2.2 < b.2.2)

instance (a b : ℚ × ℚ × ℕ) : Decidable (LtA a b) := by
  unfold LtA; infer_instance

/-- Python `>` on the apprentice 3-tuples. -/
def gtA (a b : ℚ × ℚ × ℕ) : Bool := decide (LtA b a)

/-- The apprentice ranking key of a trace entry:
`(t.get("score", 0.0), t.get("certeza", 0.0), len(t.get("matched", [])))`
(every entry the engine builds carries all three keys). -/
def claveAprendiz (t : Traza) : ℚ × ℚ × ℕ :=
  (t.score, t.certeza, t.matched.length)

/-- Stable insertion into a list already in descending key order: skip over
strictly greater keys only, so an equal-key element already present stays in
front. -/
def insertaDesc {α : Type} (key : α → ℚ × ℚ × ℕ) (x : α) :
    List α → List α
  | [] => [x]
  | y :: ys =>
      if gtA (key y) (key x) then y :: insertaDesc key x ys else x :: y :: ys

/-- Stable descending sort by key — the semantics of CPython
`sorted(l, key=key, reverse=True)`: descending in the key order, equal-key
elements in their original relative order. -/
def ordenaDesc {α : Type} (key : α → ℚ × ℚ × ℕ) : List α → List α
  | [] => []
  | x :: xs => insertaDesc key x (ordenaDesc key xs)

/-- One apprentice candidate line:
`f"- {id} score={score} certeza={certeza} faltan: {join(missing)}"`. -/
def lineaCandidato (c : Traza) : String :=
  "- " ++ pyStrOpt c.regla_id ++ " score=" ++ fmtQ c.score ++
    " certeza=" ++ fmtQ c.certeza ++ " faltan: " ++ unir c.missing

/-- Strict lexicographic order on the expert candidate key
`(cumple, score, certeza, len(matched))` with the bool as 0/1
(Python orders `False < True`). -/
def LtE (a b : ℕ × ℚ × ℚ × ℕ) : Prop :=
  a.1 < b.1 ∨ a.1 = b.1 ∧
    (a.2.1 < b.2.1 ∨ a.2.1 = b.2.1 ∧
      (a.2.2.1 < b.2.2.1 ∨ a.2.2.1 = b.2.2.1 ∧ a.2.2.2 < b.2.2.2))

instance (a b : ℕ × ℚ × ℚ × ℕ) : Decidable (LtE a b) := by
  unfold LtE; infer_instance

/-- Python `>` on the expert 4-tuples. -/
def gtE (a b : ℕ × ℚ × ℚ × ℕ) : Bool := decide (LtE b a)

/-- The expert ranking key of a trace entry. -/
def claveExperto (t : Traza) : ℕ × ℚ × ℚ × ℕ :=
  ((if t.cumple then 1 else 0), t.score, t.certeza, t.matched.length)

/-- Stable insertion in descending expert-key order. -/
def insertaDescE {α : Type} (key : α → ℕ × ℚ × ℚ × ℕ) (x : α) :
    List α → List α
  | [] => [x]
  | y :: ys =>
      if gtE (key y) (key x) then y :: insertaDescE key x ys else x :: y :: ys

/-- Stable descending sort by the expert key. -/
def ordenaDescE {α : Type} (key : α → ℕ × ℚ × ℚ × ℕ) : List α → List α
  | [] => []
  | x :: xs => insertaDescE key x (ordenaDescE key xs)

/-- One expert candidate line of the no-diagnosis trace summary. -/
def lineaExperto (t : Traza) : String :=
  "- " ++ pyStrOpt t.regla_id ++ " cumple=" ++ pyBool t.cumple ++
    " score=" ++ fmtQ t.score ++ " certeza=" ++ fmtQ t.certeza ++
    " missing=[" ++ unir t.missing ++ "] -> " ++ pyStrOpt t.conclusion

/-- `MotorInferencia._explicacion_sin_diagnostico`: the no-diagnosis rendering
for the three audience profiles.  The apprentice branch ranks the trace by
`(score, certeza, len(matched))` descending (stable) and keeps the first two
candidates; the expert branch ranks by `(cumple, score, certeza,
len(matched))` descending and keeps five. -/
def explicacionSinDiagnostico (perfil : String) (hechos : List String)
    (traza : List Traza) : String :=
  if perfil = "cliente" then
    lineaDiv ++ "\n" ++
    "Diagnóstico: NO DISPONIBLE\n" ++
    lineaDiv ++ "\n" ++
    "No se pudo obtener un diagnóstico con las reglas actuales.\n" ++
    "Esto puede pasar si faltan reglas o si los síntomas no coinciden con ningún caso conocido.\n\n" ++
    "¿Qué puedes hacer ahora?\n" ++
    "- Verifica si escribiste correctamente los síntomas.\n" ++
    "- Si el problema continúa, se recomienda revisión en taller.\n" ++
    lineaDiv
  else if perfil = "aprendiz" then
    let candidatos := (ordenaDesc claveAprendiz traza).take 2
    String.intercalate "\n"
      ([lineaDiv,
        "Diagnóstico: NO DISPONIBLE (no hubo match completo)",
        lineaDiv,
        "Hechos ingresados: " ++ unir hechos,
        "",
        "Candidatos cercanos (para guiar nuevas reglas o preguntas):"] ++
       (if candidatos.isEmpty then ["- (sin candidatos)"]
        else candidatos.map lineaCandidato) ++
       ["",
        "Sugerencia: vuelve a Adquisición para capturar una regla que cubra los síntomas faltantes.",
        lineaDiv])
  else
    let candidatos := (ordenaDescE claveExperto traza).take 5
    String.intercalate "\n"
      ([lineaDiv,
        "Diagnóstico: NO DISPONIBLE (no hubo match completo)",
        lineaDiv,
        "Hechos ingresados: " ++ unir hechos,
        "",
        "TRAZA resumida (top 5 reglas por score/certeza):"] ++
       candidatos.map lineaExperto ++
       ["",
        "Acción recomendada: crear regla nueva o refinar condiciones para cubrir este patrón.",
        lineaDiv])

/-- A value inside the `jerarquias` tree: a dict node (`obj`, with its ordered
child-name/subtree pairs, names already `str(...)`-converted) or any non-dict
value (`otro`), at which `_print_tree`-style descent stops (`validar`'s dfs
returns without children there). -/
inductive Jer where
  | obj (hijos : List (String × Jer))
  | otro

/-- The raw `ontologia_inicial.jerarquias` value: a dict of root-name/subtree
pairs, or anything that fails `isinstance(jer, dict)`. -/
inductive JerRaiz where
  | obj (raices : List (String × Jer))
  | otro

/-- A value read from a triple dict with `t.get(...)`: a string, or anything
else (`None` for an absent key, numbers, ...) — the code only distinguishes
strings from the rest via `isinstance(..., str)`. -/
inductive Campo where
  | str (s : String)
  | otro
deriving DecidableEq

/-- A relation triple dict, keys `origen` / `relacion` / `destino`. -/
structure TriplaDict where
  origen : Campo
  relacion : Campo
  destino : Campo
deriving DecidableEq

/-- An element of `ontologia_inicial.relaciones`: a dict or not. -/
inductive Tripla where
  | dict (td : TriplaDict)
  | noDict
deriving DecidableEq

/-- The raw `ontologia_inicial.relaciones` value. -/
inductive RelRaiz where
  | lista (ts : List Tripla)
  | noLista
deriving DecidableEq

/-- The `validacion_config` dict, restricted to the keys the validator reads:
`no_permitir_ciclos_jerarquia` (read as `bool(cfg.get(..., True))`, modelled
by the Bool it evaluates to) and `relaciones_permitidas` (`some` when the
value is a list of strings, `none` otherwise, per the `isinstance` checks in
`_allowed_relations`).  The config dict may carry further keys — in
particular a maximum-depth limit named by the documentation — which no code
path of `validar_coherencia_detallada` reads; `max_depth` carries such a
configured value so that statements can quantify over it.
`requerir_0_inconsistencias_para_aprobacion` is read but its branch is
`pass`, contributing nothing to the returned issue lists. -/
structure Cfg where
  no_permitir_ciclos_jerarquia : Bool
  relaciones_permitidas : Option (List String)
  max_depth : Option ℕ
  requerir_0_inconsistencias_para_aprobacion : Bool
deriving DecidableEq

/-- The `vocabulario` dict: the three label lists (a non-list value collapses
to the empty list in the source, modelled by supplying that list), plus the
optional `relaciones_permitidas` fallback list. -/
structure Vocab where
  sintomas : List String
  diagnosticos : List String
  reparaciones : List String
  relaciones_permitidas : Option (List String)
deriving DecidableEq

/-- The `ontologia_inicial` dict as the validator reads it. -/
structure Ont where
  jerarquias : JerRaiz
  relaciones : RelRaiz
  validacion_config : Cfg

/-- The cycle error message
`f"Ciclo detectado en jerarquía: '{node_name}' (ruta: {' > '.join(path)})"`. -/
def msgCiclo (nombre : String) (path : List String) : String :=
  "Ciclo detectado en jerarquía: \x27" ++ nombre ++ "\x27 (ruta: " ++
    String.intercalate " > " path ++ ")"

/-- The duplicate-child error message. -/
def msgDup (cname padre : String) : String :=
  "Duplicado: \x27" ++ cname ++ "\x27 aparece más de una vez como hijo de \x27" ++
    padre ++ "\x27."

/-- Python `repr` of a list of plain strings, as an f-string interpolates it:
`['a', 'b']`. -/
def pyListRepr (l : List String) : String :=
  "[" ++ String.intercalate ", " (l.map fun s => "\x27" ++ s ++ "\x27") ++ "]"

/-- Error `relaciones[{i}] no es dict.` -/
def msgNoDict (i : ℕ) : String := "relaciones[" ++ toString i ++ "] no es dict."

/-- Error `relaciones[{i}].origen inválido.` -/
def msgOrigenInvalido (i : ℕ) : String :=
  "relaciones[" ++ toString i ++ "].origen inválido."

/-- Error `relaciones[{i}].relacion inválida.` -/
def msgRelacionInvalida (i : ℕ) : String :=
  "relaciones[" ++ toString i ++ "].relacion inválida."

/-- Error `relaciones[{i}].destino inválido.` -/
def msgDestinoInvalido (i : ℕ) : String :=
  "relaciones[" ++ toString i ++ "].destino inválido."

/-- Error `Relación no permitida: '{relacion}' en relaciones[{i}] (permitidas: {allowed_rel}).` -/
def msgNoPermitida (relacion : String) (i : ℕ) (allowed : List String) : String :=
  "Relación no permitida: \x27" ++ relacion ++ "\x27 en relaciones[" ++
    toString i ++ "] (permitidas: " ++ pyListRepr allowed ++ ")."

/-- Warning for an origin found in neither the diagnosis vocabulary nor the
hierarchy node names. -/
def msgOrigenDesconocido (origen : String) : String :=
  "Advertencia: origen \x27" ++ origen ++
    "\x27 no está en vocabulario.diagnosticos ni en jerarquías."

/-- Error `Destino '{destino}' no reconocido como síntoma (relaciones[{i}]).` -/
def msgDestSintoma (destino : String) (i : ℕ) : String :=
  "Destino \x27" ++ destino ++ "\x27 no reconocido como síntoma (relaciones[" ++
    toString i ++ "])."

/-- Error `Destino '{destino}' no reconocido como reparación (relaciones[{i}]).` -/
def msgDestReparacion (destino : String) (i : ℕ) : String :=
  "Destino \x27" ++ destino ++ "\x27 no reconocido como reparación (relaciones[" ++
    toString i ++ "])."

/-- Warning for a `causa` destination found in neither the diagnosis
vocabulary nor the hierarchy node names. -/
def msgDestCausa (destino : String) : String :=
  "Advertencia: destino \x27" ++ destino ++
    "\x27 en relación \x27causa\x27 no está en diagnósticos ni en jerarquías."

/-- Warning for a relation kind left unvalidated because no allow-list is
configured. -/
def msgNoValidada (relacion : String) : String :=
  "Advertencia: relación \x27" ++ relacion ++
    "\x27 no validada (no hay lista de permitidas)."

mutual

/-- The recursive `dfs(node_name, node, path)` of
`validar_coherencia_detallada`, with the mutated state (`all_nodes`,
`errores`) threaded explicitly.  `path` carries the ancestor names including
the current node as its last element, so `path.dropLast` is the strict
ancestors (`path[:-1]`).  On a cycle hit the error is appended and the branch
is not descended. -/
def dfs (noCiclos : Bool) (nombre : String) (node : Jer) (path : List String)
    (allNodes : Finset String) (errores : List String) :
    Finset String × List String :=
  let a2 := insert nombre allNodes
  if noCiclos && decide (nombre ∈ path.dropLast) then
    (a2, errores ++ [msgCiclo nombre path])
  else
    match node with
    | Jer.otro => (a2, errores)
    | Jer.obj hijos => dfsHijos noCiclos nombre hijos path ∅ a2 errores

/-- The child loop inside `dfs`: duplicate-name check against the
`seen_children` set, then recursive descent, children in dict order. -/
def dfsHijos (noCiclos : Bool) (padre : String)
    (hijos : List (String × Jer)) (path : List String) (seen : Finset String)
    (allNodes : Finset String) (errores : List String) :
    Finset String × List String :=
  match hijos with
  | [] => (allNodes, errores)
  | (cname, cnode) :: rest =>
    let e2 := if cname ∈ seen then errores ++ [msgDup cname padre] else errores
    let st := dfs noCiclos cname cnode (path ++ [cname]) allNodes e2
    dfsHijos noCiclos padre rest path (insert cname seen) st.1 st.2

end

/-- The root loop `for root_name, subtree in jer.items(): dfs(r, subtree, [r])`. -/
def raicesFold (noCiclos : Bool) (raices : List (String × Jer))
    (allNodes : Finset String) (errores : List String) :
    Finset String × List String :=
  match raices with
  | [] => (allNodes, errores)
  | (rname, subtree) :: rest =>
    let st := dfs noCiclos rname subtree [rname] allNodes errores
    raicesFold noCiclos rest st.1 st.2

/-- `OntologiaDominio._allowed_relations`: the config list when it is a valid
list of strings, else the vocabulary fallback, else `[]`. -/
def allowedRelations (cfg : Cfg) (vocab : Vocab) : List String :=
  match cfg.relaciones_permitidas with
  | some rels => rels
  | none =>
    match vocab.relaciones_permitidas with
    | some rels2 => rels2
    | none => []

/-- The body of the triple-validation loop for `relaciones[i]`, returning the
(errors, warnings) this triple appends: shape and non-empty-field checks with
early `continue`, allow-list check, origin vocabulary warning, then the
kind-specific destination check (`sintoma` / `requiere_reparacion` errors,
`causa` warning, otherwise the unvalidated-kind warning only when no
allow-list is configured). -/
def validarTripla (allowed : List String) (vd vs vr allNodes : Finset String)
    (i : ℕ) (t : Tripla) : List String × List String :=
  match t with
  | Tripla.noDict => ([msgNoDict i], [])
  | Tripla.dict td =>
    match td.origen with
    | Campo.otro => ([msgOrigenInvalido i], [])
    | Campo.str o =>
      if (pyStrip o).isEmpty then ([msgOrigenInvalido i], [])
      else
        match td.relacion with
        | Campo.otro => ([msgRelacionInvalida i], [])
        | Campo.str rl =>
          if (pyStrip rl).isEmpty then ([msgRelacionInvalida i], [])
          else
            match td.destino with
            | Campo.otro => ([msgDestinoInvalido i], [])
            | Campo.str d =>
              if (pyStrip d).isEmpty then ([msgDestinoInvalido i], [])
              else
                let origen := pyStrip o
                let relacion := pyStrip rl
                let destino := pyStrip d
                let e1 := if !allowed.isEmpty && !allowed.contains relacion
                  then [msgNoPermitida relacion i allowed] else []
                let w1 := if origen ∉ vd ∧ origen ∉ allNodes
                  then [msgOrigenDesconocido origen] else []
                let ew2 : List String × List String :=
                  if relacion = "sintoma" then
                    ((if destino ∉ vs ∧ destino ∉ allNodes
                      then [msgDestSintoma destino i] else []), [])
                  else if relacion = "requiere_reparacion" then
                    ((if destino ∉ vr ∧ destino ∉ allNodes
                      then [msgDestReparacion destino i] else []), [])
                  else if relacion = "causa" then
                    ([], (if destino ∉ vd ∧ destino ∉ allNodes
                      then [msgDestCausa destino] else []))
                  else
                    ([], (if allowed.isEmpty then [msgNoValidada relacion] else []))
                (e1 ++ ew2.1, w1 ++ ew2.2)

/-- The `for i, t in enumerate(rel)` loop, appending each triple's errors and
warnings in order. -/
def bucleRel (allowed : List String) (vd vs vr allNodes : Finset String) :
    List Tripla → ℕ → List String → List String → List String × List String
  | [], _, errores, advertencias => (errores, advertencias)
  | t :: rest, i, errores, advertencias =>
    let r := validarTripla allowed vd vs vr allNodes i t
    bucleRel allowed vd vs vr allNodes rest (i + 1) (errores ++ r.1)
      (advertencias ++ r.2)

/-- `OntologiaDominio.validar_coherencia_detallada`, returning
`(errores, advertencias)`: root-shape checks with early return, the dfs over
every hierarchy root collecting `all_nodes` and cycle/duplicate errors, then
the relation-triple loop against the allow-list, the vocabularies and the
collected node names. -/
def validarCoherenciaDetallada (ont : Ont) (vocab : Vocab) :
    List String × List String :=
  match ont.jerarquias with
  | JerRaiz.otro => (["ontologia_inicial.jerarquias debe ser un objeto (dict)."], [])
  | JerRaiz.obj raices =>
    match ont.relaciones with
    | RelRaiz.noLista =>
        (["ontologia_inicial.relaciones debe ser una lista de triplas (origen/relacion/destino)."], [])
    | RelRaiz.lista rel =>
      let noCiclos := ont.validacion_config.no_permitir_ciclos_jerarquia
      let st := raicesFold noCiclos raices ∅ []
      let allowed := allowedRelations ont.validacion_config vocab
      let vs := vocab.sintomas.toFinset
      let vd := vocab.diagnosticos.toFinset
      let vr := vocab.reparaciones.toFinset
      bucleRel allowed vd vs vr st.1 rel 0 st.2 []

mutual

/-- Modelled from the spec: the depth of a deepest node of a subtree, where
the root of the subtree sits at the given starting depth.  The specification
describes a depth check over the hierarchy; the source contains no
corresponding code, so the notion is reconstructed here from the spec's words
only to let statements speak about node depths. -/
def profundidadDesde (d : ℕ) : Jer → ℕ
  | Jer.otro => d
  | Jer.obj hijos => profundidadHijos d hijos

/-- Modelled from the spec: deepest node depth among a child list whose parent
sits at depth `d`. -/
def profundidadHijos (d : ℕ) : List (String × Jer) → ℕ
  | [] => d
  | (_, c) :: rest => max (profundidadDesde (d + 1) c) (profundidadHijos d rest)

end

/-- The tie-break key tuple read as a nested lexicographic product. -/
def toLexKey (a : Key) : ℕ ×ₗ ℚ ×ₗ ℕ ×ₗ ℚ :=
  toLex (a.1, toLex (a.2.1, toLex (a.2.2.1, a.2.2.2)))


/-- Concrete rule fixtures used to instantiate the theorems below on the
specification scenarios.  `reglaEspacios` is a rule whose conditions list is
non-empty but normalizes to the empty token set (a single all-blank token). -/
def reglaEspacios : Regla :=
  { id := some "R1", nombre := "", condiciones := Condiciones.lista [" "],
    certeza := 9 / 10, conclusion := some "X", tipo_falla := "",
    requiere_reparacion := [], explicacion_cliente := "",
    explicacion_tecnica := "" }

/-- The trace entry `inferir` produces for `reglaEspacios` on any symptoms. -/
def trazaEspacios : Traza :=
  { regla_id := some "R1", nombre := "", cumple := true, score := 0,
    certeza := 9 / 10, matched := [], missing := [], conclusion := some "X",
    tipo_falla := "", requiere_reparacion := [] }

/-- Scenario C fixture: one-condition rule, certainty 0.5, conclusion X. -/
def reglaEscA : Regla :=
  { id := some "R1", nombre := "", condiciones := Condiciones.lista ["a"],
    certeza := 1 / 2, conclusion := some "X", tipo_falla := "",
    requiere_reparacion := [], explicacion_cliente := "",
    explicacion_tecnica := "" }

/-- Scenario C fixture: two-condition rule, certainty 0.5, conclusion Y. -/
def reglaEscB : Regla :=
  { id := some "R2", nombre := "", condiciones := Condiciones.lista ["a", "b"],
    certeza := 1 / 2, conclusion := some "Y", tipo_falla := "",
    requiere_reparacion := [], explicacion_cliente := "",
    explicacion_tecnica := "" }

/-- Scenario D hierarchy `{"A": {"B": {"A": {}}}}`. -/
def jerarquiaD : JerRaiz :=
  JerRaiz.obj [("A", Jer.obj [("B", Jer.obj [("A", Jer.obj [])])])]

/-- A three-level chain hierarchy `{"A": {"B": {"C": {}}}}` (node C at
depth 3). -/
def jerarquiaCadena : JerRaiz :=
  JerRaiz.obj [("A", Jer.obj [("B", Jer.obj [("C", Jer.obj [])])])]

/-- Default validation config: forbid cycles, no allow-list, no depth limit. -/
def cfgPorDefecto : Cfg :=
  { no_permitir_ciclos_jerarquia := true, relaciones_permitidas := none,
    max_depth := none, requerir_0_inconsistencias_para_aprobacion := false }

/-- Empty vocabulary. -/
def vocabVacio : Vocab :=
  { sintomas := [], diagnosticos := [], reparaciones := [],
    relaciones_permitidas := none }

/-- Scenario E triple: requires-repair with a destination unknown to both the
repair vocabulary and the hierarchy. -/
def triplaE : Tripla :=
  Tripla.dict ⟨Campo.str "short_circuit", Campo.str "requiere_reparacion",
    Campo.str "battery_replace"⟩

/-- A well-formed triple with a custom relation kind and a known origin. -/
def triplaCustom : Tripla :=
  Tripla.dict ⟨Campo.str "diag1", Campo.str "custom", Campo.str "dest1"⟩

/-- Trace-entry fixtures for the no-diagnosis apprentice rendering (the
numeric fields are integral rationals so that the fixtures evaluate inside
the kernel). -/
def trazaEjA : Traza :=
  { regla_id := some "T1", nombre := "", cumple := false, score := 2,
    certeza := 1, matched := ["a", "b"], missing := ["c"],
    conclusion := some "X", tipo_falla := "", requiere_reparacion := [] }

/-- Second fixture: lower score, higher certainty. -/
def trazaEjB : Traza :=
  { regla_id := some "T2", nombre := "", cumple := false, score := 1,
    certeza := 3, matched := ["a"], missing := ["d", "e"],
    conclusion := some "Y", tipo_falla := "", requiere_reparacion := [] }

/-- Third fixture: same score as the first, lower certainty. -/
def trazaEjC : Traza :=
  { regla_id := some "T3", nombre := "", cumple := false, score := 2,
    certeza := 0, matched := ["a", "b"], missing := ["c"],
    conclusion := some "Z", tipo_falla := "", requiere_reparacion := [] }

theorem sortFinset_sorted (s : Finset String) :
    List.Sorted (· ≤ ·) (sortFinset s) := by
  obtain ⟨val, nd⟩ := s
  induction val using Quotient.inductionOn with
  | h l => exact ordenaStrSorted l

theorem sortFinset_coe (s : Finset String) :
    ((sortFinset s : List String) : Multiset String) = s.1 := by
  obtain ⟨val, nd⟩ := s
  induction val using Quotient.inductionOn with
  | h l => exact Quotient.sound (ordenaStrPerm l)

/-- The executable listing agrees with Mathlib\x27s `Finset.sort`. -/
theorem sortFinset_eq (s : Finset String) :
    sortFinset s = Finset.sort (· ≤ ·) s := by
  have h2 : ((Finset.sort (· ≤ ·) s : List String) : Multiset String) = s.1 :=
    Finset.sort_eq _ _
  have h3 := sortFinset_coe s
  rw [← h2] at h3
  exact List.eq_of_perm_of_sorted (Multiset.coe_eq_coe.mp h3)
    (sortFinset_sorted s) (Finset.sort_sorted _ _)

theorem keyLt_iff_lex (a b : Key) : KeyLt a b ↔ toLexKey a < toLexKey b := by
  obtain ⟨a1, a2, a3, a4⟩ := a
  obtain ⟨b1, b2, b3, b4⟩ := b
  simp [KeyLt, toLexKey, Prod.Lex.lt_iff]

theorem toLexKey_injective : Function.Injective toLexKey := by
  intro a b h
  obtain ⟨a1, a2, a3, a4⟩ := a
  obtain ⟨b1, b2, b3, b4⟩ := b
  simpa [toLexKey, Prod.ext_iff] using h

theorem keyGt_iff {a b : Key} : keyGt a b = true ↔ KeyLt b a := by
  simp [keyGt]

theorem keyGt_false_iff {a b : Key} : keyGt a b = false ↔ ¬ KeyLt b a := by
  simp [keyGt]

theorem keyGt_self (a : Key) : keyGt a a = false := by
  rw [keyGt_false_iff, keyLt_iff_lex]; exact lt_irrefl _

theorem keyGt_asymm {a b : Key} (h : keyGt a b = true) : keyGt b a = false := by
  rw [keyGt_iff, keyLt_iff_lex] at h
  rw [keyGt_false_iff, keyLt_iff_lex]
  exact not_lt_of_gt h

theorem keyGt_trans {a b c : Key} (h1 : keyGt a b = true)
    (h2 : keyGt b c = true) : keyGt a c = true := by
  rw [keyGt_iff, keyLt_iff_lex] at h1 h2 ⊢
  exact lt_trans h2 h1

theorem keyGt_of_gt_of_ngt {a b c : Key} (h1 : keyGt a b = true)
    (h2 : keyGt c b = false) : keyGt a c = true := by
  rw [keyGt_iff, keyLt_iff_lex] at h1 ⊢
  rw [keyGt_false_iff, keyLt_iff_lex] at h2
  exact lt_of_le_of_lt (not_lt.mp h2) h1

theorem keyGt_false_trans {a b c : Key} (h1 : keyGt a b = false)
    (h2 : keyGt b c = false) : keyGt a c = false := by
  rw [keyGt_false_iff, keyLt_iff_lex] at h1 h2 ⊢
  exact not_lt.mpr (le_trans (not_lt.mp h1) (not_lt.mp h2))

theorem keyGt_antisymm {a b : Key} (h1 : keyGt a b = false)
    (h2 : keyGt b a = false) : a = b := by
  rw [keyGt_false_iff, keyLt_iff_lex] at h1 h2
  exact toLexKey_injective (le_antisymm (not_lt.mp h1) (not_lt.mp h2))

/-- Componentwise consequences of a key not being lexicographically above
another: used to read the tie-break chain (full match, then certainty, then
specificity, then score) off the maximality of the selected key. -/
theorem le_components_of_not_keyLt {a b : Key} (h : ¬ KeyLt a b) :
    b.1 ≤ a.1 ∧ (b.1 = a.1 → b.2.1 ≤ a.2.1) ∧
      (b.1 = a.1 → b.2.1 = a.2.1 → b.2.2.1 ≤ a.2.2.1) ∧
      (b.1 = a.1 → b.2.1 = a.2.1 → b.2.2.1 = a.2.2.1 → b.2.2.2 ≤ a.2.2.2) := by
  unfold KeyLt at h
  push_neg at h
  obtain ⟨h1, h2⟩ := h
  refine ⟨h1, ?_, ?_, ?_⟩
  · intro e1
    exact (h2 e1.symm).1
  · intro e1 e2
    exact ((h2 e1.symm).2 e2.symm).1
  · intro e1 e2 e3
    exact ((h2 e1.symm).2 e2.symm).2 e3.symm

/-- Full characterisation of the strict-greater best scan: when the fold over
the (rule, key) pairs returns a best pair, either the initial best survived
and no scanned key is strictly above it, or the best pair occurs in the list,
is strictly above the initial best and every pair before it, and no pair
after it is strictly above it — i.e. the scan selects the first pair
attaining the maximal key. -/
theorem bestFold_spec (ps : List (Regla × Key)) :
    ∀ (b : Option (Regla × Key)) (m : Regla) (k : Key),
      bestFold b ps = some (m, k) →
      (b = some (m, k) ∧ ∀ p ∈ ps, keyGt p.2 k = false)
      ∨ (∃ l1 l2, ps = l1 ++ (m, k) :: l2
          ∧ (∀ x, b = some x → keyGt k x.2 = true)
          ∧ (∀ p ∈ l1, keyGt k p.2 = true)
          ∧ (∀ p ∈ l2, keyGt p.2 k = false)) := by
  induction ps with
  | nil =>
    intro b m k h
    left
    exact ⟨h, by simp⟩
  | cons p rest ih =>
    intro b m k h
    simp only [bestFold] at h
    have H := ih (actualiza b p) m k h
    cases b with
    | none =>
      simp only [actualiza] at H
      rcases H with ⟨hb, hmax⟩ | ⟨l1, l2, heq, hbx, hl1, hl2⟩
      · injection hb with hb
        right
        refine ⟨[], rest, by simp [hb], ?_, ?_, hmax⟩
        · intro x hx; cases hx
        · intro q hq; cases hq
      · right
        refine ⟨p :: l1, l2, by simp [heq], ?_, ?_, hl2⟩
        · intro x hx; cases hx
        · intro q hq
          rcases List.mem_cons.mp hq with hq | hq
          · subst hq; exact hbx q rfl
          · exact hl1 q hq
    | some x0 =>
      obtain ⟨m0, k0⟩ := x0
      by_cases hgt : keyGt p.2 k0 = true
      · simp only [actualiza, hgt, if_true] at H
        rcases H with ⟨hb, hmax⟩ | ⟨l1, l2, heq, hbx, hl1, hl2⟩
        · injection hb with hb
          right
          have hk : k = p.2 := by rw [hb]
          refine ⟨[], rest, by simp [hb], ?_, ?_, hmax⟩
          · intro x hx
            injection hx with hx
            subst hx
            rw [hk]
            exact hgt
          · intro q hq; cases hq
        · right
          have hkp : keyGt k p.2 = true := hbx p rfl
          refine ⟨p :: l1, l2, by simp [heq], ?_, ?_, hl2⟩
          · intro x hx
            injection hx with hx
            subst hx
            exact keyGt_trans hkp hgt
          · intro q hq
            rcases List.mem_cons.mp hq with hq | hq
            · subst hq; exact hkp
            · exact hl1 q hq
      · have hgt2 : keyGt p.2 k0 = false := by
          cases hx : keyGt p.2 k0 with
          | false => rfl
          | true => exact absurd hx hgt
        simp only [actualiza, hgt2, Bool.false_eq_true, if_false] at H
        rcases H with ⟨hb, hmax⟩ | ⟨l1, l2, heq, hbx, hl1, hl2⟩
        · injection hb with hb
          have hm0 : m0 = m := congrArg Prod.fst hb
          have hk0 : k0 = k := congrArg Prod.snd hb
          left
          subst hm0; subst hk0
          refine ⟨rfl, ?_⟩
          intro q hq
          rcases List.mem_cons.mp hq with hq | hq
          · subst hq; exact hgt2
          · exact hmax q hq
        · right
          have hkk0 : keyGt k k0 = true := hbx (m0, k0) rfl
          refine ⟨p :: l1, l2, by simp [heq], ?_, ?_, hl2⟩
          · intro x hx
            injection hx with hx
            subst hx
            exact hkk0
          · intro q hq
            rcases List.mem_cons.mp hq with hq | hq
            · subst hq; exact keyGt_of_gt_of_ngt hkk0 hgt2
            · exact hl1 q hq

theorem trazaDe_cons_none {sset : Finset String} {r : Regla}
    {rest : List Regla} (h : condList r = none) :
    trazaDe sset (r :: rest) = trazaDe sset rest := by
  simp [trazaDe, List.filterMap_cons, h]

theorem trazaDe_cons_some {sset : Finset String} {r : Regla}
    {rest : List Regla} {cs : List String} (h : condList r = some cs) :
    trazaDe sset (r :: rest) = evalRegla sset r cs :: trazaDe sset rest := by
  simp [trazaDe, List.filterMap_cons, h]

theorem paresDe_cons_none {sset : Finset String} {r : Regla}
    {rest : List Regla} (h : condList r = none) :
    paresDe sset (r :: rest) = paresDe sset rest := by
  simp [paresDe, List.filterMap_cons, h]

theorem paresDe_cons_some {sset : Finset String} {r : Regla}
    {rest : List Regla} {cs : List String} (h : condList r = some cs) :
    paresDe sset (r :: rest) = (r, keyOf sset r cs) :: paresDe sset rest := by
  simp [paresDe, List.filterMap_cons, h]

/-- The loop of `inferir` decomposes into the trace list (appended in
snapshot order) and the pure best scan over the eligible (rule, key) pairs. -/
theorem bucle_eq (sset : Finset String) :
    ∀ (rs : List Regla) (t : List Traza) (b : Option (Regla × Key)),
      bucle sset rs t b =
        (t ++ trazaDe sset rs, bestFold b (paresDe sset rs)) := by
  intro rs
  induction rs with
  | nil =>
    intro t b
    simp [bucle, trazaDe, paresDe, bestFold]
  | cons r rest ih =>
    intro t b
    cases hc : condList r with
    | none =>
      rw [trazaDe_cons_none hc, paresDe_cons_none hc]
      simp only [bucle, hc]
      exact ih t b
    | some cs =>
      rw [trazaDe_cons_some hc, paresDe_cons_some hc]
      simp only [bucle, hc, bestFold]
      rw [ih]
      simp

/-- Branch normal form of `inferir` after splitting the loop. -/
theorem inferir_eq (reglas : List Regla) (sintomas : List String) :
    inferir reglas sintomas =
      (match bestFold none (paresDe (normSset sintomas) reglas) with
       | none => Resultado.noPosible (trazaDe (normSset sintomas) reglas)
           (sortFinset (normSset sintomas))
       | some (mejor, _) =>
         match (trazaDe (normSset sintomas) reglas).find?
             (fun t => t.regla_id == mejor.id) with
         | none => Resultado.noPosible (trazaDe (normSset sintomas) reglas)
             (sortFinset (normSset sintomas))
         | some e =>
           if e.cumple then
             Resultado.diagnostico mejor.conclusion mejor.id mejor.nombre
               mejor.certeza mejor.tipo_falla mejor.requiere_reparacion
               mejor.explicacion_cliente mejor.explicacion_tecnica
               mejor.condiciones (trazaDe (normSset sintomas) reglas)
               (sortFinset (normSset sintomas))
           else Resultado.noPosible (trazaDe (normSset sintomas) reglas)
             (sortFinset (normSset sintomas))) := by
  simp only [inferir, bucle_eq, List.nil_append]

/-- The trace of any inference result is the eligible-rule trace, in snapshot
order. -/
theorem inferir_traza (reglas : List Regla) (sintomas : List String) :
    (inferir reglas sintomas).traza = trazaDe (normSset sintomas) reglas := by
  rw [inferir_eq]
  split
  · rfl
  · split
    · rfl
    · split
      · rfl
      · rfl

theorem evalRegla_missing (sset : Finset String) (r : Regla)
    (cs : List String) :
    (evalRegla sset r cs).missing = sortFinset (normCset cs \ sset) :=
  rfl

theorem evalRegla_matched (sset : Finset String) (r : Regla)
    (cs : List String) :
    (evalRegla sset r cs).matched = sortFinset (normCset cs ∩ sset) :=
  rfl

theorem evalRegla_missing_nil_iff (sset : Finset String) (r : Regla)
    (cs : List String) :
    (evalRegla sset r cs).missing = [] ↔ normCset cs ⊆ sset := by
  rw [evalRegla_missing, sortFinset_eq]
  constructor
  · intro h
    have hl := congrArg List.length h
    rw [Finset.length_sort] at hl
    exact Finset.sdiff_eq_empty_iff_subset.mp
      (Finset.card_eq_zero.mp (by simpa using hl))
  · intro h
    rw [Finset.sdiff_eq_empty_iff_subset.mpr h]
    exact Finset.sort_empty _

theorem evalRegla_cumple_iff (sset : Finset String) (r : Regla)
    (cs : List String) :
    (evalRegla sset r cs).cumple = true ↔ normCset cs ⊆ sset := by
  have h0 : (evalRegla sset r cs).cumple =
      ((sortFinset (normCset cs \ sset)).length == 0) := rfl
  rw [h0, sortFinset_eq, Finset.length_sort]
  rw [Nat.beq_eq_true_eq, Finset.card_eq_zero, Finset.sdiff_eq_empty_iff_subset]

theorem keyOf_fst_eq_one_iff (sset : Finset String) (r : Regla)
    (cs : List String) :
    (keyOf sset r cs).1 = 1 ↔ normCset cs ⊆ sset := by
  have h0 : (keyOf sset r cs).1 =
      if ((sortFinset (normCset cs \ sset)).length == 0) then 1 else 0 :=
    rfl
  rw [h0, sortFinset_eq, Finset.length_sort]
  by_cases h : normCset cs \ sset = ∅
  · rw [h]
    simp [Finset.sdiff_eq_empty_iff_subset.mp h]
  · have hsub : ¬ normCset cs ⊆ sset := fun hs =>
      h (Finset.sdiff_eq_empty_iff_subset.mpr hs)
    have hc : ((normCset cs \ sset).card == 0) = false := by
      rw [beq_eq_false_iff_ne]
      intro hz
      exact h (Finset.card_eq_zero.mp hz)
    rw [hc]
    simp [hsub]

theorem keyOf_fst_le_one (sset : Finset String) (r : Regla)
    (cs : List String) : (keyOf sset r cs).1 ≤ 1 := by
  have h0 : (keyOf sset r cs).1 =
      if ((sortFinset (normCset cs \ sset)).length == 0) then 1 else 0 :=
    rfl
  rw [h0]
  split <;> omega

theorem keyOf_certeza (sset : Finset String) (r : Regla) (cs : List String) :
    (keyOf sset r cs).2.1 = r.certeza := rfl

theorem keyOf_card (sset : Finset String) (r : Regla) (cs : List String) :
    (keyOf sset r cs).2.2.1 = (normCset cs).card := rfl

theorem mem_trazaDe {sset : Finset String} {rs : List Regla} {e : Traza} :
    e ∈ trazaDe sset rs ↔
      ∃ r ∈ rs, ∃ cs, condList r = some cs ∧ evalRegla sset r cs = e := by
  simp only [trazaDe, List.mem_filterMap, Option.map_eq_some']

theorem mem_paresDe {sset : Finset String} {rs : List Regla} {m : Regla}
    {k : Key} :
    (m, k) ∈ paresDe sset rs ↔
      m ∈ rs ∧ ∃ cs, condList m = some cs ∧ k = keyOf sset m cs := by
  simp only [paresDe, List.mem_filterMap, Option.map_eq_some']
  constructor
  · rintro ⟨r, hr, cs, hcs, he⟩
    have h1 : r = m := congrArg Prod.fst he
    have h2 : keyOf sset r cs = k := congrArg Prod.snd he
    subst h1
    exact ⟨hr, cs, hcs, h2.symm⟩
  · rintro ⟨hm, cs, hcs, hk⟩
    exact ⟨m, hm, cs, hcs, by rw [hk]⟩

theorem bestFold_isSome_of_some (x : Regla × Key) :
    ∀ ps : List (Regla × Key), (bestFold (some x) ps).isSome = true := by
  intro ps
  induction ps generalizing x with
  | nil => rfl
  | cons p rest ih =>
    simp only [bestFold, actualiza]
    split
    · exact ih p
    · exact ih _

theorem bestFold_isSome {ps : List (Regla × Key)} (h : ps ≠ []) :
    (bestFold (none : Option (Regla × Key)) ps).isSome = true := by
  cases ps with
  | nil => exact absurd rfl h
  | cons p rest =>
    simp only [bestFold, actualiza]
    exact bestFold_isSome_of_some p rest

/-- Under the snapshot invariant that rule ids are pairwise distinct, the
first trace entry whose `regla_id` equals a given eligible rule's id is that
rule's own entry. -/
theorem find_trazaDe (sset : Finset String) :
    ∀ (rs : List Regla), List.Pairwise (fun a b => a.id ≠ b.id) rs →
      ∀ (m : Regla) (cs : List String), m ∈ rs → condList m = some cs →
        (trazaDe sset rs).find? (fun t => t.regla_id == m.id) =
          some (evalRegla sset m cs) := by
  intro rs
  induction rs with
  | nil =>
    intro _ m cs hm
    cases hm
  | cons r rest ih =>
    intro hp m cs hm hcs
    obtain ⟨hr, hp2⟩ := List.pairwise_cons.mp hp
    cases hc : condList r with
    | none =>
      rw [trazaDe_cons_none hc]
      rcases List.mem_cons.mp hm with h | h
      · subst h
        rw [hc] at hcs
        cases hcs
      · exact ih hp2 m cs h hcs
    | some cs0 =>
      rw [trazaDe_cons_some hc]
      rcases List.mem_cons.mp hm with h | h
      · subst h
        rw [hc] at hcs
        injection hcs with hcs
        subst hcs
        rw [List.find?_cons_of_pos]
        simp [evalRegla]
      · have hne : r.id ≠ m.id := hr m h
        rw [List.find?_cons_of_neg]
        · exact ih hp2 m cs h hcs
        · simp [evalRegla]
          exact hne

theorem inferir_eq_none {reglas : List Regla} {sintomas : List String}
    (h : bestFold none (paresDe (normSset sintomas) reglas) = none) :
    inferir reglas sintomas =
      Resultado.noPosible (trazaDe (normSset sintomas) reglas)
        (sortFinset (normSset sintomas)) := by
  simp only [inferir, bucle_eq, List.nil_append, h]

theorem inferir_eq_find_none {reglas : List Regla} {sintomas : List String}
    {m : Regla} {k : Key}
    (h1 : bestFold none (paresDe (normSset sintomas) reglas) = some (m, k))
    (h2 : (trazaDe (normSset sintomas) reglas).find?
      (fun t => t.regla_id == m.id) = none) :
    inferir reglas sintomas =
      Resultado.noPosible (trazaDe (normSset sintomas) reglas)
        (sortFinset (normSset sintomas)) := by
  simp only [inferir, bucle_eq, List.nil_append, h1, h2]

theorem inferir_eq_find_some {reglas : List Regla} {sintomas : List String}
    {m : Regla} {k : Key} {e : Traza}
    (h1 : bestFold none (paresDe (normSset sintomas) reglas) = some (m, k))
    (h2 : (trazaDe (normSset sintomas) reglas).find?
      (fun t => t.regla_id == m.id) = some e) :
    inferir reglas sintomas =
      (if e.cumple then
        Resultado.diagnostico m.conclusion m.id m.nombre m.certeza
          m.tipo_falla m.requiere_reparacion m.explicacion_cliente
          m.explicacion_tecnica m.condiciones
          (trazaDe (normSset sintomas) reglas)
          (sortFinset (normSset sintomas))
      else Resultado.noPosible (trazaDe (normSset sintomas) reglas)
        (sortFinset (normSset sintomas))) := by
  simp only [inferir, bucle_eq, List.nil_append, h1, h2]

/-- Claim C1: for every rule snapshot and symptom input, `inferir` returns
either the no-diagnosis sentinel shape or a bound diagnosis whose conclusion
is the conclusion of some rule of the snapshot whose full normalized
condition set is contained in the normalized symptom set; a partial-match
diagnosis is never returned. -/
theorem claim_C1 (reglas : List Regla) (sintomas : List String) :
    (∃ t h, inferir reglas sintomas = Resultado.noPosible t h) ∨
    (∃ m ∈ reglas, ∃ cs, condList m = some cs ∧
      normCset cs ⊆ normSset sintomas ∧
      inferir reglas sintomas = Resultado.diagnostico m.conclusion m.id
        m.nombre m.certeza m.tipo_falla m.requiere_reparacion
        m.explicacion_cliente m.explicacion_tecnica m.condiciones
        (trazaDe (normSset sintomas) reglas)
        (sortFinset (normSset sintomas))) := by
  cases hbf : bestFold none (paresDe (normSset sintomas) reglas) with
  | none => exact Or.inl ⟨_, _, inferir_eq_none hbf⟩
  | some x =>
    obtain ⟨m, k⟩ := x
    rcases bestFold_spec _ none m k hbf with ⟨hb, _⟩ | ⟨l1, l2, heq, _, hl1, hl2⟩
    · cases hb
    · have hmem : (m, k) ∈ paresDe (normSset sintomas) reglas := by
        rw [heq]
        exact List.mem_append.mpr (Or.inr (List.mem_cons_self _ _))
      obtain ⟨hm_mem, cs, hcs, hkeq⟩ := mem_paresDe.mp hmem
      have hmax : ∀ p ∈ paresDe (normSset sintomas) reglas,
          keyGt p.2 k = false := by
        intro p hp
        rw [heq] at hp
        rcases List.mem_append.mp hp with hp | hp
        · exact keyGt_asymm (hl1 p hp)
        · rcases List.mem_cons.mp hp with hp | hp
          · rw [hp]
            exact keyGt_self k
          · exact hl2 p hp
      cases hf : (trazaDe (normSset sintomas) reglas).find?
          (fun t => t.regla_id == m.id) with
      | none => exact Or.inl ⟨_, _, inferir_eq_find_none hbf hf⟩
      | some e =>
        by_cases hcum : e.cumple = true
        · right
          have he_mem : e ∈ trazaDe (normSset sintomas) reglas :=
            List.mem_of_find?_eq_some hf
          obtain ⟨r2, hr2, cs2, hcs2, he⟩ := mem_trazaDe.mp he_mem
          have hr2sub : normCset cs2 ⊆ normSset sintomas := by
            rw [← he] at hcum
            exact (evalRegla_cumple_iff _ _ _).mp hcum
          have hp2 : (r2, keyOf (normSset sintomas) r2 cs2) ∈
              paresDe (normSset sintomas) reglas :=
            mem_paresDe.mpr ⟨hr2, cs2, hcs2, rfl⟩
          have h1 : (keyOf (normSset sintomas) r2 cs2).1 = 1 :=
            (keyOf_fst_eq_one_iff _ _ _).mpr hr2sub
          have hng := hmax _ hp2
          rw [keyGt_false_iff] at hng
          have hk1 : 1 ≤ k.1 := by
            have hcomp := (le_components_of_not_keyLt hng).1
            rw [h1] at hcomp
            exact hcomp
          have hk1e : k.1 = 1 :=
            le_antisymm (by rw [hkeq]; exact keyOf_fst_le_one _ _ _) hk1
          have hsubm : normCset cs ⊆ normSset sintomas := by
            apply (keyOf_fst_eq_one_iff (normSset sintomas) m cs).mp
            rw [← hkeq]
            exact hk1e
          refine ⟨m, hm_mem, cs, hcs, hsubm, ?_⟩
          rw [inferir_eq_find_some hbf hf, if_pos hcum]
        · left
          exact ⟨trazaDe (normSset sintomas) reglas,
            sortFinset (normSset sintomas),
            by rw [inferir_eq_find_some hbf hf, if_neg hcum]⟩

/-- Claim C2: when at least one rule fully matches and rule ids are pairwise
distinct (the snapshot invariant), `inferir` selects as winner the rule with
the lexicographically greatest key `(cumple, certeza, |conditions|, score)`:
the winner occurs in the eligible (rule, key) list, every strictly earlier
pair has a strictly smaller key (so among fully equal keys the first rule in
snapshot order wins), no pair anywhere has a strictly greater key, the winner
fully matches, and — in particular — among fully-matching rules no rule beats
the winner on certainty, nor, at equal certainty, on number of conditions,
nor, at equal certainty and conditions, on score; the bound diagnosis is the
winner's. -/
theorem claim_C2 (reglas : List Regla) (sintomas : List String)
    (hids : List.Pairwise (fun a b => a.id ≠ b.id) reglas)
    (hm : ∃ r ∈ reglas, ∃ cs, condList r = some cs ∧
      normCset cs ⊆ normSset sintomas) :
    ∃ m cs k l1 l2,
      m ∈ reglas ∧ condList m = some cs ∧
      k = keyOf (normSset sintomas) m cs ∧
      paresDe (normSset sintomas) reglas = l1 ++ (m, k) :: l2 ∧
      (∀ p ∈ l1, keyGt k p.2 = true) ∧
      (∀ p ∈ paresDe (normSset sintomas) reglas, keyGt p.2 k = false) ∧
      k.1 = 1 ∧ normCset cs ⊆ normSset sintomas ∧
      (∀ p ∈ paresDe (normSset sintomas) reglas, p.2.1 = 1 →
        p.2.2.1 ≤ k.2.1) ∧
      (∀ p ∈ paresDe (normSset sintomas) reglas, p.2.1 = 1 →
        p.2.2.1 = k.2.1 → p.2.2.2.1 ≤ k.2.2.1) ∧
      (∀ p ∈ paresDe (normSset sintomas) reglas, p.2.1 = 1 →
        p.2.2.1 = k.2.1 → p.2.2.2.1 = k.2.2.1 → p.2.2.2.2 ≤ k.2.2.2) ∧
      inferir reglas sintomas = Resultado.diagnostico m.conclusion m.id
        m.nombre m.certeza m.tipo_falla m.requiere_reparacion
        m.explicacion_cliente m.explicacion_tecnica m.condiciones
        (trazaDe (normSset sintomas) reglas)
        (sortFinset (normSset sintomas)) := by
  obtain ⟨r0, hr0, cs0, hcs0, hsub0⟩ := hm
  have hp0 : (r0, keyOf (normSset sintomas) r0 cs0) ∈
      paresDe (normSset sintomas) reglas :=
    mem_paresDe.mpr ⟨hr0, cs0, hcs0, rfl⟩
  have hne : paresDe (normSset sintomas) reglas ≠ [] := by
    intro h
    rw [h] at hp0
    cases hp0
  have hsome := bestFold_isSome hne
  cases hbf : bestFold none (paresDe (normSset sintomas) reglas) with
  | none =>
    rw [hbf] at hsome
    cases hsome
  | some x =>
    obtain ⟨m, k⟩ := x
    rcases bestFold_spec _ none m k hbf with ⟨hb, _⟩ | ⟨l1, l2, heq, _, hl1, hl2⟩
    · cases hb
    · have hmem : (m, k) ∈ paresDe (normSset sintomas) reglas := by
        rw [heq]
        exact List.mem_append.mpr (Or.inr (List.mem_cons_self _ _))
      obtain ⟨hm_mem, cs, hcs, hkeq⟩ := mem_paresDe.mp hmem
      have hmax : ∀ p ∈ paresDe (normSset sintomas) reglas,
          keyGt p.2 k = false := by
        intro p hp
        rw [heq] at hp
        rcases List.mem_append.mp hp with hp | hp
        · exact keyGt_asymm (hl1 p hp)
        · rcases List.mem_cons.mp hp with hp | hp
          · rw [hp]
            exact keyGt_self k
          · exact hl2 p hp
      have h01 : (keyOf (normSset sintomas) r0 cs0).1 = 1 :=
        (keyOf_fst_eq_one_iff _ _ _).mpr hsub0
      have hng0 := hmax _ hp0
      rw [keyGt_false_iff] at hng0
      have hk1 : k.1 = 1 := by
        have hcomp := (le_components_of_not_keyLt hng0).1
        rw [h01] at hcomp
        have hle : k.1 ≤ 1 := by
          rw [hkeq]
          exact keyOf_fst_le_one _ _ _
        omega
      have hsubm : normCset cs ⊆ normSset sintomas := by
        apply (keyOf_fst_eq_one_iff (normSset sintomas) m cs).mp
        rw [← hkeq]
        exact hk1
      have hres : inferir reglas sintomas = Resultado.diagnostico m.conclusion
          m.id m.nombre m.certeza m.tipo_falla m.requiere_reparacion
          m.explicacion_cliente m.explicacion_tecnica m.condiciones
          (trazaDe (normSset sintomas) reglas)
          (sortFinset (normSset sintomas)) := by
        have hfind := find_trazaDe (normSset sintomas) reglas hids m cs
          hm_mem hcs
        have hcum : (evalRegla (normSset sintomas) m cs).cumple = true :=
          (evalRegla_cumple_iff _ _ _).mpr hsubm
        rw [inferir_eq_find_some hbf hfind, if_pos hcum]
      refine ⟨m, cs, k, l1, l2, hm_mem, hcs, hkeq, heq, hl1, hmax, hk1,
        hsubm, ?_, ?_, ?_, hres⟩
      · intro p hp hp1
        have hng := hmax p hp
        rw [keyGt_false_iff] at hng
        exact (le_components_of_not_keyLt hng).2.1 (by rw [hp1, hk1])
      · intro p hp hp1 hpc
        have hng := hmax p hp
        rw [keyGt_false_iff] at hng
        exact (le_components_of_not_keyLt hng).2.2.1 (by rw [hp1, hk1]) hpc
      · intro p hp hp1 hpc hpn
        have hng := hmax p hp
        rw [keyGt_false_iff] at hng
        exact (le_components_of_not_keyLt hng).2.2.2 (by rw [hp1, hk1]) hpc hpn

/-- Claim C9: every trace entry of `inferir` has sorted, disjoint `matched`
and `missing` lists whose union is the rule's normalized condition set, its
`cumple` flag holds exactly when `missing` is empty, and the trace lists one
entry per rule with a non-empty conditions list, in snapshot order. -/
theorem claim_C9 (reglas : List Regla) (sintomas : List String) :
    (inferir reglas sintomas).traza =
      (reglas.filterMap fun r => (condList r).map
        fun cs => evalRegla (normSset sintomas) r cs) ∧
    ∀ e ∈ (inferir reglas sintomas).traza,
      ∃ r ∈ reglas, ∃ cs, condList r = some cs ∧
        e = evalRegla (normSset sintomas) r cs ∧
        List.Sorted (· ≤ ·) e.matched ∧ List.Sorted (· ≤ ·) e.missing ∧
        (∀ x ∈ e.matched, x ∉ e.missing) ∧
        e.matched.toFinset ∪ e.missing.toFinset = normCset cs ∧
        (e.cumple = true ↔ e.missing = []) := by
  constructor
  · rw [inferir_traza]
    rfl
  · intro e he
    rw [inferir_traza] at he
    obtain ⟨r, hr, cs, hcs, hev⟩ := mem_trazaDe.mp he
    subst hev
    refine ⟨r, hr, cs, hcs, rfl, ?_, ?_, ?_, ?_, ?_⟩
    · rw [evalRegla_matched, sortFinset_eq]
      exact Finset.sort_sorted _ _
    · rw [evalRegla_missing, sortFinset_eq]
      exact Finset.sort_sorted _ _
    · intro x hx hx2
      rw [evalRegla_matched, sortFinset_eq, Finset.mem_sort] at hx
      rw [evalRegla_missing, sortFinset_eq, Finset.mem_sort] at hx2
      exact (Finset.mem_sdiff.mp hx2).2 (Finset.mem_inter.mp hx).2
    · rw [evalRegla_matched, evalRegla_missing, sortFinset_eq, sortFinset_eq,
        Finset.sort_toFinset, Finset.sort_toFinset]
      ext x
      simp only [Finset.mem_union, Finset.mem_inter, Finset.mem_sdiff]
      tauto
    · constructor
      · intro h
        exact (evalRegla_missing_nil_iff _ _ _).mpr
          ((evalRegla_cumple_iff _ _ _).mp h)
      · intro h
        exact (evalRegla_cumple_iff _ _ _).mpr
          ((evalRegla_missing_nil_iff _ _ _).mp h)

theorem redondeaMedioPar_bounds {x : ℚ} (h0 : 0 ≤ x) (h1 : x ≤ 1000) :
    0 ≤ redondeaMedioPar x ∧ redondeaMedioPar x ≤ 1000 := by
  have hn0 : (0 : ℤ) ≤ ⌊x⌋ := Int.floor_nonneg.mpr h0
  have hn1 : ⌊x⌋ ≤ 1000 := by
    have := Int.floor_le_floor h1
    simpa using this
  simp only [redondeaMedioPar]
  split_ifs with hf hg he
  · exact ⟨hn0, hn1⟩
  all_goals
    have hxge : (1 : ℚ) / 2 ≤ x - ⌊x⌋ := le_of_not_lt hf
  all_goals
    have hn999 : ⌊x⌋ ≤ 999 := by
      by_contra hgt
      push_neg at hgt
      have hfl : (1000 : ℚ) ≤ (⌊x⌋ : ℚ) := by exact_mod_cast hgt
      linarith
  all_goals omega

theorem redondea3_bounds {x : ℚ} (h0 : 0 ≤ x) (h1 : x ≤ 1) :
    0 ≤ redondea3 x ∧ redondea3 x ≤ 1 := by
  have hb := redondeaMedioPar_bounds (x := x * 1000) (by linarith) (by linarith)
  unfold redondea3
  constructor
  · apply div_nonneg
    · exact_mod_cast hb.1
    · norm_num
  · rw [div_le_one (by norm_num)]
    exact_mod_cast hb.2

theorem evalRegla_score (sset : Finset String) (r : Regla)
    (cs : List String) :
    (evalRegla sset r cs).score =
      redondea3 (((normCset cs ∩ sset).card : ℚ) /
        (max 1 ((normCset cs).card : ℚ))) := by
  have h0 : (evalRegla sset r cs).score =
      redondea3 (((sortFinset (normCset cs ∩ sset)).length : ℚ) /
        (max 1 ((normCset cs).card : ℚ))) := rfl
  rw [h0, sortFinset_eq, Finset.length_sort]

/-- Claim C10: the score divisor of every trace entry is the positive
`max(1, |condition set|)`, so the computation is total, and every stored
score lies in the closed interval `[0, 1]`. -/
theorem claim_C10 (reglas : List Regla) (sintomas : List String) :
    ∀ e ∈ (inferir reglas sintomas).traza,
      ∃ r ∈ reglas, ∃ cs, condList r = some cs ∧
        e = evalRegla (normSset sintomas) r cs ∧
        (1 : ℚ) ≤ max 1 ((normCset cs).card : ℚ) ∧
        0 ≤ e.score ∧ e.score ≤ 1 := by
  intro e he
  rw [inferir_traza] at he
  obtain ⟨r, hr, cs, hcs, hev⟩ := mem_trazaDe.mp he
  subst hev
  have hd1 : (1 : ℚ) ≤ max 1 ((normCset cs).card : ℚ) := le_max_left _ _
  have hd0 : (0 : ℚ) < max 1 ((normCset cs).card : ℚ) :=
    lt_of_lt_of_le zero_lt_one hd1
  have hab : ((normCset cs ∩ normSset sintomas).card : ℚ) ≤
      max 1 ((normCset cs).card : ℚ) := by
    have hcard : (normCset cs ∩ normSset sintomas).card ≤ (normCset cs).card :=
      Finset.card_le_card (Finset.inter_subset_left)
    calc ((normCset cs ∩ normSset sintomas).card : ℚ)
        ≤ ((normCset cs).card : ℚ) := by exact_mod_cast hcard
      _ ≤ max 1 ((normCset cs).card : ℚ) := le_max_right _ _
  have hsc0 : (0 : ℚ) ≤ ((normCset cs ∩ normSset sintomas).card : ℚ) /
      (max 1 ((normCset cs).card : ℚ)) :=
    div_nonneg (by positivity) (le_of_lt hd0)
  have hsc1 : ((normCset cs ∩ normSset sintomas).card : ℚ) /
      (max 1 ((normCset cs).card : ℚ)) ≤ 1 :=
    (div_le_one hd0).mpr hab
  have hb := redondea3_bounds hsc0 hsc1
  refine ⟨r, hr, cs, hcs, rfl, hd1, ?_, ?_⟩
  · rw [evalRegla_score]
    exact hb.1
  · rw [evalRegla_score]
    exact hb.2

/-- Claim C7 (amended): rules whose `condiciones` value is missing, not a
list, or an empty list are skipped — they contribute no trace entry and can
never be selected as the best rule; however, the skip happens before token
normalization, so a rule whose non-empty conditions list normalizes to the
empty token set is eligible and fully matches vacuously (see
`claim_C7_contra`). -/
theorem claim_C7_amended :
    (∀ (reglas : List Regla) (sintomas : List String) (m : Regla) (k : Key),
        (bucle (normSset sintomas) reglas [] none).2 = some (m, k) →
        (condList m).isSome = true) ∧
    (∀ (reglas : List Regla) (sintomas : List String),
        (inferir reglas sintomas).traza =
          (reglas.filterMap fun r => (condList r).map
            fun cs => evalRegla (normSset sintomas) r cs)) ∧
    (∀ (sset : Finset String) (r : Regla) (cs : List String),
        condList r = some cs → normCset cs = ∅ →
        (evalRegla sset r cs).cumple = true) := by
  refine ⟨?_, ?_, ?_⟩
  · intro reglas sintomas m k h
    have h2 : bestFold none (paresDe (normSset sintomas) reglas) =
        some (m, k) := by
      rw [bucle_eq] at h
      exact h
    rcases bestFold_spec _ none m k h2 with ⟨hb, _⟩ | ⟨l1, l2, heq, _, _, _⟩
    · cases hb
    · have hmem : (m, k) ∈ paresDe (normSset sintomas) reglas := by
        rw [heq]
        exact List.mem_append.mpr (Or.inr (List.mem_cons_self _ _))
      obtain ⟨_, cs, hcs, _⟩ := mem_paresDe.mp hmem
      rw [hcs]
      rfl
  · intro reglas sintomas
    rw [inferir_traza]
    rfl
  · intro sset r cs _ hempty
    rw [evalRegla_cumple_iff, hempty]
    exact Finset.empty_subset _

/-- Helper: rounding zero to three decimals gives zero. -/
theorem redondea3_cero : redondea3 0 = 0 := by
  norm_num [redondea3, redondeaMedioPar]

/-- Counterexample to claim C7 as stated: `reglaEspacios` has the condition
list `[" "]`, whose normalized condition set is empty, yet it wins a bound
diagnosis on the symptom input `["a"]` — an empty-after-normalization rule is
eligible and fully matches. -/
theorem claim_C7_contra :
    normCset [" "] = ∅ ∧
    inferir [reglaEspacios] ["a"] =
      Resultado.diagnostico (some "X") (some "R1") "" (9 / 10) "" [] "" ""
        (Condiciones.lista [" "]) [trazaEspacios] ["a"] := by
  have hvac : normCset [" "] = ∅ := by decide
  refine ⟨hvac, ?_⟩
  have hbf : bestFold none (paresDe (normSset ["a"]) [reglaEspacios]) =
      some (reglaEspacios, keyOf (normSset ["a"]) reglaEspacios [" "]) := rfl
  have hfind : (trazaDe (normSset ["a"]) [reglaEspacios]).find?
      (fun t => t.regla_id == reglaEspacios.id) =
      some (evalRegla (normSset ["a"]) reglaEspacios [" "]) := by
    rw [show trazaDe (normSset ["a"]) [reglaEspacios] =
      [evalRegla (normSset ["a"]) reglaEspacios [" "]] from rfl]
    rw [List.find?_cons_of_pos]
    decide
  have hcum : (evalRegla (normSset ["a"]) reglaEspacios [" "]).cumple = true := by
    rw [evalRegla_cumple_iff, hvac]
    exact Finset.empty_subset _
  rw [inferir_eq_find_some hbf hfind, if_pos hcum]
  have h1 : sortFinset (normCset [" "] ∩ normSset ["a"]) = [] := by decide
  have h2 : sortFinset (normCset [" "] \ normSset ["a"]) = [] := by decide
  have htr : evalRegla (normSset ["a"]) reglaEspacios [" "] = trazaEspacios := by
    simp only [evalRegla, h1, h2, trazaEspacios, List.length_nil,
      Nat.cast_zero, zero_div, redondea3_cero]
    rfl
  rw [show trazaDe (normSset ["a"]) [reglaEspacios] =
    [evalRegla (normSset ["a"]) reglaEspacios [" "]] from rfl, htr,
    show sortFinset (normSset ["a"]) = ["a"] from by decide]
  rfl

/-- Claim C3: with cycle checking enabled, the hierarchy dfs emits exactly
one cycle error — naming the node and the full path — whenever the current
node already occurs among its strict ancestors, and does not descend into
that branch; on the scenario-D hierarchy `{"A": {"B": {"A": {}}}}` the whole
validation returns exactly the single cycle error for node "A" with path
"A > B > A". -/
theorem claim_C3 :
    (∀ (nombre : String) (node : Jer) (path : List String)
        (allNodes : Finset String) (errores : List String),
        nombre ∈ path.dropLast →
        dfs true nombre node path allNodes errores =
          (insert nombre allNodes, errores ++ [msgCiclo nombre path])) ∧
    msgCiclo "A" ["A", "B", "A"] =
      "Ciclo detectado en jerarquía: \x27A\x27 (ruta: A > B > A)" ∧
    validarCoherenciaDetallada ⟨jerarquiaD, RelRaiz.lista [], cfgPorDefecto⟩
      vocabVacio = ([msgCiclo "A" ["A", "B", "A"]], []) := by
  refine ⟨?_, by decide, by decide⟩
  · intro nombre node path allNodes errores h
    have hb : (true && decide (nombre ∈ path.dropLast)) = true := by
      simp [h]
    unfold dfs
    rw [if_pos hb]

/-- Claim C4 (amended): hierarchy validation performs no depth check — the
returned issues are identical whether or not a maximum depth is configured,
so no depth-exceeded error is ever emitted.  (The validator reads only
`no_permitir_ciclos_jerarquia` and `relaciones_permitidas` from the config.) -/
theorem claim_C4_amended :
    ∀ (jer : JerRaiz) (rel : RelRaiz) (vocab : Vocab) (b r0 : Bool)
      (rp : Option (List String)) (d : Option ℕ),
      validarCoherenciaDetallada ⟨jer, rel, ⟨b, rp, d, r0⟩⟩ vocab =
        validarCoherenciaDetallada ⟨jer, rel, ⟨b, rp, none, r0⟩⟩ vocab := by
  intro jer rel vocab b r0 rp d
  rfl

/-- Counterexample to claim C4 as stated: the chain hierarchy
`{"A": {"B": {"C": {}}}}` has node "C" at depth 3, the config sets a maximum
depth of 1, yet validation returns no issues at all — no error citing any
node is emitted. -/
theorem claim_C4_contra :
    profundidadDesde 1 (Jer.obj [("B", Jer.obj [("C", Jer.obj [])])]) = 3 ∧
    ({ cfgPorDefecto with max_depth := some 1 } : Cfg).max_depth = some 1 ∧
    validarCoherenciaDetallada
      ⟨jerarquiaCadena, RelRaiz.lista [],
        { cfgPorDefecto with max_depth := some 1 }⟩ vocabVacio = ([], []) := by
  refine ⟨by decide, rfl, by decide⟩

/-- Claim C5 (amended): for a well-formed `requiere_reparacion` triple whose
destination is in neither the repair vocabulary nor the hierarchy node
names, and whose kind passes the allow-list check (no allow-list configured,
or the kind allowed), relation validation emits exactly the one hard error
naming the destination and the triple index; a `causa` triple with an
unknown destination under the same proviso contributes no error — only the
destination warning (after the possible origin warning). -/
theorem claim_C5_amended :
    (∀ (allowed : List String) (vd vs vr allNodes : Finset String) (i : ℕ)
        (o rl d : String),
        (pyStrip o).isEmpty = false →
        pyStrip rl = "requiere_reparacion" →
        (pyStrip d).isEmpty = false →
        pyStrip d ∉ vr → pyStrip d ∉ allNodes →
        (allowed = [] ∨ "requiere_reparacion" ∈ allowed) →
        (validarTripla allowed vd vs vr allNodes i
            (Tripla.dict ⟨Campo.str o, Campo.str rl, Campo.str d⟩)).1 =
          [msgDestReparacion (pyStrip d) i]) ∧
    (∀ (allowed : List String) (vd vs vr allNodes : Finset String) (i : ℕ)
        (o rl d : String),
        (pyStrip o).isEmpty = false →
        pyStrip rl = "causa" →
        (pyStrip d).isEmpty = false →
        pyStrip d ∉ vd → pyStrip d ∉ allNodes →
        (allowed = [] ∨ "causa" ∈ allowed) →
        validarTripla allowed vd vs vr allNodes i
            (Tripla.dict ⟨Campo.str o, Campo.str rl, Campo.str d⟩) =
          ([], (if pyStrip o ∉ vd ∧ pyStrip o ∉ allNodes
            then [msgOrigenDesconocido (pyStrip o)] else []) ++
            [msgDestCausa (pyStrip d)])) := by
  constructor
  · intro allowed vd vs vr allNodes i o rl d ho hrl hd hdr hdn hall
    have hrlne : (pyStrip rl).isEmpty = false := by
      rw [hrl]
      rfl
    have hlit : ("requiere_reparacion" : String).isEmpty = false := rfl
    have hP : ¬(¬allowed = [] ∧ "requiere_reparacion" ∉ allowed) := by
      rcases hall with rfl | hmem
      · intro h
        exact h.1 rfl
      · intro h
        exact h.2 hmem
    simp [validarTripla, ho, hrlne, hd, hrl, hlit, hP, hdr, hdn]
  · intro allowed vd vs vr allNodes i o rl d ho hrl hd hdr hdn hall
    have hrlne : (pyStrip rl).isEmpty = false := by
      rw [hrl]
      rfl
    have hlit : ("causa" : String).isEmpty = false := rfl
    have hP : ¬(¬allowed = [] ∧ "causa" ∉ allowed) := by
      rcases hall with rfl | hmem
      · intro h
        exact h.1 rfl
      · intro h
        exact h.2 hmem
    simp [validarTripla, ho, hrlne, hd, hrl, hlit, hP, hdr, hdn]

/-- Counterexample to claim C5 as stated: with the allow-list configured to
`["causa"]`, the scenario-E triple (kind `requiere_reparacion`, destination
unknown to the repair vocabulary and to the hierarchy) yields two hard
errors referencing `relaciones[0]` — the not-permitted-kind error and the
unknown-destination error — not exactly one. -/
theorem claim_C5_contra :
    (validarCoherenciaDetallada
        ⟨JerRaiz.obj [], RelRaiz.lista [triplaE],
          { cfgPorDefecto with relaciones_permitidas := some ["causa"] }⟩
        vocabVacio).1 =
      [msgNoPermitida "requiere_reparacion" 0 ["causa"],
        msgDestReparacion "battery_replace" 0] ∧
    msgNoPermitida "requiere_reparacion" 0 ["causa"] ≠
      msgDestReparacion "battery_replace" 0 := by
  constructor
  · decide
  · decide

/-- Claim C6 (amended): with a non-empty allow-list configured, a well-formed
triple whose kind is outside the list yields the not-permitted hard error
(first among that triple's errors); with no allow-list configured, a kind
other than the three type-checked kinds yields no error and the
not-type-checked warning (after the possible origin warning); but when a
configured allow-list contains such a kind, no issue at all is emitted for
it beyond the possible origin warning — in particular no not-type-checked
warning. -/
theorem claim_C6_amended :
    (∀ (allowed : List String) (vd vs vr allNodes : Finset String) (i : ℕ)
        (o rl d : String),
        (pyStrip o).isEmpty = false →
        (pyStrip rl).isEmpty = false →
        (pyStrip d).isEmpty = false →
        allowed ≠ [] → pyStrip rl ∉ allowed →
        (validarTripla allowed vd vs vr allNodes i
            (Tripla.dict ⟨Campo.str o, Campo.str rl, Campo.str d⟩)).1.head? =
          some (msgNoPermitida (pyStrip rl) i allowed)) ∧
    (∀ (vd vs vr allNodes : Finset String) (i : ℕ) (o rl d : String),
        (pyStrip o).isEmpty = false →
        (pyStrip rl).isEmpty = false →
        (pyStrip d).isEmpty = false →
        pyStrip rl ≠ "sintoma" → pyStrip rl ≠ "requiere_reparacion" →
        pyStrip rl ≠ "causa" →
        validarTripla [] vd vs vr allNodes i
            (Tripla.dict ⟨Campo.str o, Campo.str rl, Campo.str d⟩) =
          ([], (if pyStrip o ∉ vd ∧ pyStrip o ∉ allNodes
            then [msgOrigenDesconocido (pyStrip o)] else []) ++
            [msgNoValidada (pyStrip rl)])) ∧
    (∀ (allowed : List String) (vd vs vr allNodes : Finset String) (i : ℕ)
        (o rl d : String),
        (pyStrip o).isEmpty = false →
        (pyStrip rl).isEmpty = false →
        (pyStrip d).isEmpty = false →
        allowed ≠ [] → pyStrip rl ∈ allowed →
        pyStrip rl ≠ "sintoma" → pyStrip rl ≠ "requiere_reparacion" →
        pyStrip rl ≠ "causa" →
        validarTripla allowed vd vs vr allNodes i
            (Tripla.dict ⟨Campo.str o, Campo.str rl, Campo.str d⟩) =
          ([], (if pyStrip o ∉ vd ∧ pyStrip o ∉ allNodes
            then [msgOrigenDesconocido (pyStrip o)] else []))) := by
  refine ⟨?_, ?_, ?_⟩
  · intro allowed vd vs vr allNodes i o rl d ho hrlne hd hne hnm
    have h1 : allowed.isEmpty = false := by
      simp [hne]
    have h2 : allowed.contains (pyStrip rl) = false := by
      simp [hnm]
    have hB : (!allowed.isEmpty && !allowed.contains (pyStrip rl)) = true := by
      rw [h1, h2]
      rfl
    simp [validarTripla, ho, hrlne, hd, hB]
    left
    rw [if_pos (And.intro hne hnm)]
    rfl
  · intro vd vs vr allNodes i o rl d ho hrlne hd h1 h2 h3
    simp [validarTripla, ho, hrlne, hd, h1, h2, h3]
  · intro allowed vd vs vr allNodes i o rl d ho hrlne hd hne hmem h1 h2 h3
    have hP : ¬(¬allowed = [] ∧ pyStrip rl ∉ allowed) := fun h => h.2 hmem
    have hE : allowed.isEmpty = false := by
      simp [hne]
    simp [validarTripla, ho, hrlne, hd, h1, h2, h3, hP, hE]
    exact hmem

/-- Counterexample to claim C6 as stated: the allow-list `["custom"]`
contains the kind `custom`, which is none of the three type-checked kinds;
for a well-formed `custom` triple with known origin, validation emits no
warning at all (and no error) — contradicting the claim that such a kind
yields a not-type-checked warning. -/
theorem claim_C6_contra :
    validarCoherenciaDetallada
      ⟨JerRaiz.obj [], RelRaiz.lista [triplaCustom],
        { cfgPorDefecto with relaciones_permitidas := some ["custom"] }⟩
      { vocabVacio with diagnosticos := ["diag1"] } = ([], []) := by
  decide

/-- The apprentice candidate key read as a nested lexicographic product. -/
def toLexA (a : ℚ × ℚ × ℕ) : ℚ ×ₗ ℚ ×ₗ ℕ :=
  toLex (a.1, toLex (a.2.1, a.2.2))

theorem ltA_iff_lex (a b : ℚ × ℚ × ℕ) : LtA a b ↔ toLexA a < toLexA b := by
  obtain ⟨a1, a2, a3⟩ := a
  obtain ⟨b1, b2, b3⟩ := b
  simp [LtA, toLexA, Prod.Lex.lt_iff]

theorem gtA_false_iff {a b : ℚ × ℚ × ℕ} : gtA a b = false ↔ ¬ LtA b a := by
  simp [gtA]

theorem gtA_self (a : ℚ × ℚ × ℕ) : gtA a a = false := by
  rw [gtA_false_iff, ltA_iff_lex]
  exact lt_irrefl _

theorem gtA_asymm {a b : ℚ × ℚ × ℕ} (h : gtA a b = true) : gtA b a = false := by
  rw [show gtA a b = true ↔ LtA b a by simp [gtA], ltA_iff_lex] at h
  rw [gtA_false_iff, ltA_iff_lex]
  exact not_lt_of_gt h

theorem gtA_false_trans {a b c : ℚ × ℚ × ℕ} (h1 : gtA a b = false)
    (h2 : gtA b c = false) : gtA a c = false := by
  rw [gtA_false_iff, ltA_iff_lex] at h1 h2 ⊢
  exact not_lt.mpr (le_trans (not_lt.mp h1) (not_lt.mp h2))

theorem insertaDesc_perm {α : Type} (key : α → ℚ × ℚ × ℕ) (x : α)
    (l : List α) : List.Perm (insertaDesc key x l) (x :: l) := by
  induction l with
  | nil => rfl
  | cons y ys ih =>
    simp only [insertaDesc]
    split
    · exact List.Perm.trans (List.Perm.cons y ih) (List.Perm.swap x y ys)
    · rfl

theorem ordenaDesc_perm {α : Type} (key : α → ℚ × ℚ × ℕ) (l : List α) :
    List.Perm (ordenaDesc key l) l := by
  induction l with
  | nil => rfl
  | cons x xs ih =>
    exact List.Perm.trans (insertaDesc_perm key x (ordenaDesc key xs))
      (List.Perm.cons x ih)

theorem mem_insertaDesc {α : Type} {key : α → ℚ × ℚ × ℕ} {x e : α}
    {l : List α} : e ∈ insertaDesc key x l ↔ e = x ∨ e ∈ l := by
  rw [(insertaDesc_perm key x l).mem_iff, List.mem_cons]

theorem insertaDesc_map {α β : Type} (k : β → ℚ × ℚ × ℕ) (f : α → β)
    (x : α) (l : List α) :
    (insertaDesc (fun a => k (f a)) x l).map f =
      insertaDesc k (f x) (l.map f) := by
  induction l with
  | nil => rfl
  | cons y ys ih =>
    simp only [insertaDesc, List.map_cons]
    split
    · rename_i h
      rw [List.map_cons, ih]
    · rfl

theorem ordenaDesc_map {α β : Type} (k : β → ℚ × ℚ × ℕ) (f : α → β)
    (l : List α) :
    (ordenaDesc (fun a => k (f a)) l).map f = ordenaDesc k (l.map f) := by
  induction l with
  | nil => rfl
  | cons x xs ih =>
    simp only [ordenaDesc, List.map_cons]
    rw [insertaDesc_map, ih]

theorem fst_le_of_mem_enumFrom {α : Type} :
    ∀ (n : ℕ) (l : List α) (p : ℕ × α), p ∈ List.enumFrom n l → n ≤ p.1 := by
  intro n l
  induction l generalizing n with
  | nil =>
    intro p hp
    cases hp
  | cons x xs ih =>
    intro p hp
    rcases List.mem_cons.mp hp with hp | hp
    · rw [hp]
    · exact le_trans (Nat.le_succ n) (ih (n + 1) p hp)

theorem pairwise_lt_enumFrom {α : Type} :
    ∀ (n : ℕ) (l : List α),
      List.Pairwise (fun p q => p.1 < q.1) (List.enumFrom n l) := by
  intro n l
  induction l generalizing n with
  | nil => exact List.Pairwise.nil
  | cons x xs ih =>
    refine List.pairwise_cons.mpr ⟨?_, ih (n + 1)⟩
    intro q hq
    exact lt_of_lt_of_le (Nat.lt_succ_self n) (fst_le_of_mem_enumFrom _ _ _ hq)

theorem insertaDesc_pairwise {α : Type} (key : α → ℚ × ℚ × ℕ) (idx : α → ℕ)
    (x : α) (l : List α)
    (hl : List.Pairwise (fun p q => gtA (key q) (key p) = false ∧
      (key p = key q → idx p < idx q)) l)
    (hx : ∀ q ∈ l, idx x < idx q) :
    List.Pairwise (fun p q => gtA (key q) (key p) = false ∧
      (key p = key q → idx p < idx q)) (insertaDesc key x l) := by
  induction l with
  | nil => simp [insertaDesc]
  | cons y ys ih =>
    obtain ⟨hy, hys⟩ := List.pairwise_cons.mp hl
    simp only [insertaDesc]
    split
    · rename_i hgt
      refine List.pairwise_cons.mpr ⟨?_, ?_⟩
      · intro e he
        rcases mem_insertaDesc.mp he with he | he
        · subst he
          refine ⟨gtA_asymm hgt, ?_⟩
          intro heq
          rw [heq] at hgt
          rw [gtA_self] at hgt
          cases hgt
        · exact hy e he
      · exact ih hys fun q hq => hx q (List.mem_cons_of_mem y hq)
    · rename_i hgt
      have hgt2 : gtA (key y) (key x) = false := by
        cases h2 : gtA (key y) (key x) with
        | false => rfl
        | true => exact absurd h2 hgt
      refine List.pairwise_cons.mpr ⟨?_, hl⟩
      intro e he
      rcases List.mem_cons.mp he with he | he
      · subst he
        exact ⟨hgt2, fun _ => hx e (List.mem_cons_self _ _)⟩
      · refine ⟨gtA_false_trans (hy e he).1 hgt2, ?_⟩
        intro _
        exact hx e (List.mem_cons_of_mem y he)

theorem ordenaDesc_pairwise {α : Type} (key : α → ℚ × ℚ × ℕ) (idx : α → ℕ) :
    ∀ l : List α, List.Pairwise (fun p q => idx p < idx q) l →
      List.Pairwise (fun p q => gtA (key q) (key p) = false ∧
        (key p = key q → idx p < idx q)) (ordenaDesc key l) := by
  intro l
  induction l with
  | nil =>
    intro _
    exact List.Pairwise.nil
  | cons x xs ih =>
    intro hl
    obtain ⟨hx, hxs⟩ := List.pairwise_cons.mp hl
    refine insertaDesc_pairwise key idx x (ordenaDesc key xs) (ih hxs) ?_
    intro q hq
    exact hx q ((ordenaDesc_perm key xs).mem_iff.mp hq)

/-- Claim C8: the no-diagnosis apprentice rendering lists exactly the first
two candidates of the stable descending sort of the trace by
`(score, certeza, |matched|)` — a permutation of the trace, descending in
the key, equal-key entries kept in original trace order (witnessed through
the enumerated trace, whose indices recover positions) — each candidate line
carrying its missing-condition list; with fewer than two entries the list is
correspondingly shorter, and an empty trace renders the no-candidates line. -/
theorem claim_C8 (hechos : List String) (traza : List Traza) :
    (ordenaDesc claveAprendiz traza =
      (ordenaDesc (fun p => claveAprendiz p.2) traza.enum).map Prod.snd) ∧
    List.Perm (ordenaDesc claveAprendiz traza) traza ∧
    List.Pairwise
      (fun p q => gtA (claveAprendiz q.2) (claveAprendiz p.2) = false ∧
        (claveAprendiz p.2 = claveAprendiz q.2 → p.1 < q.1))
      (ordenaDesc (fun p => claveAprendiz p.2) traza.enum) ∧
    (∀ p ∈ ordenaDesc (fun p => claveAprendiz p.2) traza.enum,
      traza[p.1]? = some p.2) ∧
    explicacionSinDiagnostico "aprendiz" hechos traza =
      String.intercalate "\n"
        ([lineaDiv, "Diagnóstico: NO DISPONIBLE (no hubo match completo)",
          lineaDiv, "Hechos ingresados: " ++ unir hechos, "",
          "Candidatos cercanos (para guiar nuevas reglas o preguntas):"] ++
         (if ((ordenaDesc claveAprendiz traza).take 2).isEmpty
          then ["- (sin candidatos)"]
          else ((ordenaDesc claveAprendiz traza).take 2).map lineaCandidato) ++
         ["",
          "Sugerencia: vuelve a Adquisición para capturar una regla que cubra los síntomas faltantes.",
          lineaDiv]) := by
  refine ⟨?_, ordenaDesc_perm claveAprendiz traza, ?_, ?_, ?_⟩
  · rw [ordenaDesc_map claveAprendiz Prod.snd traza.enum, List.enum_map_snd]
  · exact ordenaDesc_pairwise (fun p => claveAprendiz p.2) Prod.fst traza.enum
      (pairwise_lt_enumFrom 0 traza)
  · intro p hp
    exact List.mem_enum_iff_getElem?.mp
      ((ordenaDesc_perm (fun p => claveAprendiz p.2) traza.enum).mem_iff.mp hp)
  · unfold explicacionSinDiagnostico
    rw [if_neg (by decide), if_pos rfl]

/-- Witness for claim C2 on specification scenario C: both rules fully match
`["a", "b"]` with equal certainty; the two-condition rule R2 wins on
specificity and the bound diagnosis is "Y". -/
theorem claim_C2_witness :
    ∃ m cs k l1 l2,
      m ∈ [reglaEscA, reglaEscB] ∧ condList m = some cs ∧
      k = keyOf (normSset ["a", "b"]) m cs ∧
      paresDe (normSset ["a", "b"]) [reglaEscA, reglaEscB] =
        l1 ++ (m, k) :: l2 ∧
      (∀ p ∈ l1, keyGt k p.2 = true) ∧
      (∀ p ∈ paresDe (normSset ["a", "b"]) [reglaEscA, reglaEscB],
        keyGt p.2 k = false) ∧
      k.1 = 1 ∧ normCset cs ⊆ normSset ["a", "b"] ∧
      (∀ p ∈ paresDe (normSset ["a", "b"]) [reglaEscA, reglaEscB],
        p.2.1 = 1 → p.2.2.1 ≤ k.2.1) ∧
      (∀ p ∈ paresDe (normSset ["a", "b"]) [reglaEscA, reglaEscB],
        p.2.1 = 1 → p.2.2.1 = k.2.1 → p.2.2.2.1 ≤ k.2.2.1) ∧
      (∀ p ∈ paresDe (normSset ["a", "b"]) [reglaEscA, reglaEscB],
        p.2.1 = 1 → p.2.2.1 = k.2.1 → p.2.2.2.1 = k.2.2.1 →
        p.2.2.2.2 ≤ k.2.2.2) ∧
      inferir [reglaEscA, reglaEscB] ["a", "b"] =
        Resultado.diagnostico m.conclusion m.id m.nombre m.certeza
          m.tipo_falla m.requiere_reparacion m.explicacion_cliente
          m.explicacion_tecnica m.condiciones
          (trazaDe (normSset ["a", "b"]) [reglaEscA, reglaEscB])
          (sortFinset (normSset ["a", "b"])) :=
  claim_C2 [reglaEscA, reglaEscB] ["a", "b"]
    (by
      refine List.pairwise_cons.mpr ⟨?_, List.pairwise_singleton _ _⟩
      intro b hb
      rw [List.mem_singleton.mp hb]
      decide)
    ⟨reglaEscA, List.mem_cons_self _ _, ["a"], rfl, by decide⟩

/-- Witness for claim C3: the cycle branch of the dfs at the scenario-D
path. -/
theorem claim_C3_witness :
    dfs true "A" (Jer.obj []) ["A", "B", "A"] ∅ [] =
      (insert "A" (∅ : Finset String),
        [] ++ [msgCiclo "A" ["A", "B", "A"]]) :=
  claim_C3.1 "A" (Jer.obj []) ["A", "B", "A"] ∅ [] (by decide)

/-- Witness for claim C5 (amended): the scenario-E repair triple with no
allow-list yields exactly the one destination error, and a causa triple with
an unknown destination yields only warnings. -/
theorem claim_C5_witness :
    (validarTripla [] ∅ ∅ ∅ ∅ 0
        (Tripla.dict ⟨Campo.str "short_circuit",
          Campo.str "requiere_reparacion", Campo.str "battery_replace"⟩)).1 =
      [msgDestReparacion (pyStrip "battery_replace") 0] ∧
    validarTripla [] ∅ ∅ ∅ ∅ 1
        (Tripla.dict ⟨Campo.str "o1", Campo.str "causa", Campo.str "d1"⟩) =
      ([], (if pyStrip "o1" ∉ (∅ : Finset String) ∧
          pyStrip "o1" ∉ (∅ : Finset String)
        then [msgOrigenDesconocido (pyStrip "o1")] else []) ++
        [msgDestCausa (pyStrip "d1")]) :=
  ⟨claim_C5_amended.1 [] ∅ ∅ ∅ ∅ 0 "short_circuit" "requiere_reparacion"
      "battery_replace" (by decide) (by decide) (by decide) (by decide)
      (by decide) (Or.inl rfl),
   claim_C5_amended.2 [] ∅ ∅ ∅ ∅ 1 "o1" "causa" "d1" (by decide) (by decide)
      (by decide) (by decide) (by decide) (Or.inl rfl)⟩

/-- Witness for claim C6 (amended): a kind outside the configured allow-list
errors first; with no allow-list an unknown kind warns only; an allow-listed
custom kind produces nothing beyond the possible origin warning. -/
theorem claim_C6_witness :
    (validarTripla ["causa"] ∅ ∅ ∅ ∅ 0
        (Tripla.dict ⟨Campo.str "o1", Campo.str "custom",
          Campo.str "d1"⟩)).1.head? =
      some (msgNoPermitida (pyStrip "custom") 0 ["causa"]) ∧
    validarTripla [] ∅ ∅ ∅ ∅ 1
        (Tripla.dict ⟨Campo.str "o1", Campo.str "custom", Campo.str "d1"⟩) =
      ([], (if pyStrip "o1" ∉ (∅ : Finset String) ∧
          pyStrip "o1" ∉ (∅ : Finset String)
        then [msgOrigenDesconocido (pyStrip "o1")] else []) ++
        [msgNoValidada (pyStrip "custom")]) ∧
    validarTripla ["custom"] ∅ ∅ ∅ ∅ 2
        (Tripla.dict ⟨Campo.str "o1", Campo.str "custom", Campo.str "d1"⟩) =
      ([], (if pyStrip "o1" ∉ (∅ : Finset String) ∧
          pyStrip "o1" ∉ (∅ : Finset String)
        then [msgOrigenDesconocido (pyStrip "o1")] else [])) :=
  ⟨claim_C6_amended.1 ["causa"] ∅ ∅ ∅ ∅ 0 "o1" "custom" "d1" (by decide)
      (by decide) (by decide) (by decide) (by decide),
   claim_C6_amended.2.1 ∅ ∅ ∅ ∅ 1 "o1" "custom" "d1" (by decide) (by decide)
      (by decide) (by decide) (by decide) (by decide),
   claim_C6_amended.2.2 ["custom"] ∅ ∅ ∅ ∅ 2 "o1" "custom" "d1" (by decide)
      (by decide) (by decide) (by decide) (by decide) (by decide) (by decide)
      (by decide)⟩

/-- Witness for claim C7 (amended): a concrete run in which the selected
best rule is eligible, and a concrete vacuous full match of an
empty-normalization rule. -/
theorem claim_C7_witness :
    (bucle (normSset ["a"]) [reglaEscA] [] none).2 =
      some (reglaEscA, keyOf (normSset ["a"]) reglaEscA ["a"]) ∧
    (condList reglaEscA).isSome = true ∧
    (evalRegla (normSset ["b"]) reglaEspacios [" "]).cumple = true :=
  ⟨rfl,
   claim_C7_amended.1 [reglaEscA] ["a"] reglaEscA
     (keyOf (normSset ["a"]) reglaEscA ["a"]) rfl,
   claim_C7_amended.2.2 (normSset ["b"]) reglaEspacios [" "] rfl (by decide)⟩

/-- Witness for claim C8: on a three-entry trace the stable sort agrees with
its enumerated form, and the entry ranked first recovers its original
position in the trace. -/
theorem claim_C8_witness :
    ordenaDesc claveAprendiz [trazaEjB, trazaEjA, trazaEjC] =
      (ordenaDesc (fun p => claveAprendiz p.2)
        [trazaEjB, trazaEjA, trazaEjC].enum).map Prod.snd ∧
    [trazaEjB, trazaEjA, trazaEjC][((1 : ℕ), trazaEjA).1]? =
      some ((1 : ℕ), trazaEjA).2 :=
  ⟨(claim_C8 ["a"] [trazaEjB, trazaEjA, trazaEjC]).1,
   (claim_C8 ["a"] [trazaEjB, trazaEjA, trazaEjC]).2.2.2.1
     ((1 : ℕ), trazaEjA) (by decide)⟩

/-- Witness for claim C9: the single trace entry of a one-rule run satisfies
all the per-entry invariants. -/
theorem claim_C9_witness :
    ∃ r ∈ [reglaEscA], ∃ cs, condList r = some cs ∧
      evalRegla (normSset ["a"]) reglaEscA ["a"] =
        evalRegla (normSset ["a"]) r cs ∧
      List.Sorted (· ≤ ·) (evalRegla (normSset ["a"]) reglaEscA ["a"]).matched ∧
      List.Sorted (· ≤ ·) (evalRegla (normSset ["a"]) reglaEscA ["a"]).missing ∧
      (∀ x ∈ (evalRegla (normSset ["a"]) reglaEscA ["a"]).matched,
        x ∉ (evalRegla (normSset ["a"]) reglaEscA ["a"]).missing) ∧
      (evalRegla (normSset ["a"]) reglaEscA ["a"]).matched.toFinset ∪
        (evalRegla (normSset ["a"]) reglaEscA ["a"]).missing.toFinset =
        normCset cs ∧
      ((evalRegla (normSset ["a"]) reglaEscA ["a"]).cumple = true ↔
        (evalRegla (normSset ["a"]) reglaEscA ["a"]).missing = []) :=
  (claim_C9 [reglaEscA] ["a"]).2 (evalRegla (normSset ["a"]) reglaEscA ["a"])
    (by
      rw [inferir_traza]
      exact List.mem_singleton.mpr rfl)

/-- Witness for claim C10: the single trace entry of a one-rule run has its
score inside [0, 1]. -/
theorem claim_C10_witness :
    ∃ r ∈ [reglaEscA], ∃ cs, condList r = some cs ∧
      evalRegla (normSset ["a"]) reglaEscA ["a"] =
        evalRegla (normSset ["a"]) r cs ∧
      (1 : ℚ) ≤ max 1 ((normCset cs).card : ℚ) ∧
      0 ≤ (evalRegla (normSset ["a"]) reglaEscA ["a"]).score ∧
      (evalRegla (normSset ["a"]) reglaEscA ["a"]).score ≤ 1 :=
  claim_C10 [reglaEscA] ["a"] (evalRegla (normSset ["a"]) reglaEscA ["a"])
    (by
      rw [inferir_traza]
      exact List.mem_singleton.mpr rfl)
